import Mathlib

/-!
# Ride-sharing service: pricing, dispatch and the trip transaction

Shallow embedding of `RideSharing.h` / `RideSharing.cpp`.

* `double` is a linearly ordered field `K` (the real numbers in the intended
  reading; the rationals for evaluation).  `std::sqrt` and `std::to_string`
  are library functions and are taken as parameters `sqrt` and `to_string`.
  This is exact arithmetic.  The choice of the nearest driver depends on the
  rounding and the overflow of the computed distances, so that scan is also
  given in binary64 arithmetic (`Binary64`, `distanceTo64`, `chooseDriver64`).
* `int` is a 32-bit two's-complement integer: an `Int` kept in range by
  `wrapInt32`, so the increment of the trip id counter at `INT_MAX` gives
  `INT_MIN`, as the compiled program does.
* A `Driver*` into `drivers_` is the index of the driver in the pool; `nullptr`
  is `none`.  A `std::unique_ptr` strategy slot is an `Option`; the virtual
  call is a match on the concrete strategy class.
-/

namespace RideSharing

variable {K : Type} [LinearOrderedField K]

/-! ## Data model -/

/-- Location is `struct Location`, two coordinates. -/
structure Location (K : Type) where
  x : K
  y : K

/-- Rider is `class Rider`. -/
structure Rider (K : Type) where
  id_ : Int
  name_ : String
  pickup_ : Location K
  dropoff_ : Location K

/-- Driver is `class Driver`; `available_` defaults to `true`. -/
structure Driver (K : Type) where
  id_ : Int
  name_ : String
  rating_ : K
  available_ : Bool := true
  position_ : Location K

/-- Trip is `struct Trip`; `driver` is the index of the chosen driver in the pool. -/
structure Trip (K : Type) where
  id : Int
  rider : Rider K
  driver : Nat
  distanceKm : K
  durationMinutes : K
  fare : K
  pricingModel : String
  dispatchModel : String

/-- The concrete subclasses of `PricingStrategy`. -/
inductive PricingStrategy (K : Type) where
  | standard : PricingStrategy K
  | surge (surgeMultiplier_ : K) : PricingStrategy K
  | eco : PricingStrategy K

/-- The concrete subclasses of `DispatchStrategy`. -/
inductive DispatchStrategy where
  | highestRated : DispatchStrategy
  | nearestDriver : DispatchStrategy

/-- RideService is the private state of `class RideService`. -/
structure RideService (K : Type) where
  drivers_ : List (Driver K)
  pricingStrategy_ : Option (PricingStrategy K)
  dispatchStrategy_ : Option DispatchStrategy
  nextTripId_ : Int := 1

/-! ## Geometry and entities -/

/-- The method `Location::distanceTo`. -/
def Location.distanceTo (sqrt : K → K) (self other : Location K) : K :=
  let dx := self.x - other.x
  let dy := self.y - other.y
  sqrt (dx * dx + dy * dy)

/-- The method `Driver::setAvailable`. -/
def Driver.setAvailable (value : Bool) (self : Driver K) : Driver K :=
  { self with available_ := value }

/-- The method `Driver::moveTo`. -/
def Driver.moveTo (destination : Location K) (self : Driver K) : Driver K :=
  { self with position_ := destination }

/-! ## Pricing strategies -/

/-- The method `StandardPricing::calculateFare`. -/
def StandardPricing.calculateFare (distanceKm minutes : K) : K :=
  let baseFare : K := 2.50
  let perKm : K := 1.25
  let perMinute : K := 0.35
  baseFare + (distanceKm * perKm) + (minutes * perMinute)

/-- The method `SurgePricing::calculateFare`. -/
def SurgePricing.calculateFare (surgeMultiplier_ distanceKm minutes : K) : K :=
  StandardPricing.calculateFare distanceKm minutes * surgeMultiplier_

/-- The method `EcoPricing::calculateFare`. -/
def EcoPricing.calculateFare (distanceKm minutes : K) : K :=
  let fare := StandardPricing.calculateFare distanceKm minutes
  let discount : K := 0.10
  let minimumFare : K := 5.00
  max minimumFare (fare * (1.0 - discount))

/-- The virtual method `PricingStrategy::calculateFare`. -/
def PricingStrategy.calculateFare (self : PricingStrategy K) (distanceKm minutes : K) : K :=
  match self with
  | .standard => StandardPricing.calculateFare distanceKm minutes
  | .surge m => SurgePricing.calculateFare m distanceKm minutes
  | .eco => EcoPricing.calculateFare distanceKm minutes

/-- The virtual method `PricingStrategy::name`. -/
def PricingStrategy.name (to_string : K → String) (self : PricingStrategy K) : String :=
  match self with
  | .standard => "Standard"
  | .surge m => "Surge x" ++ to_string m
  | .eco => "Eco (10% off)"

/-! ## Dispatch strategies -/

/-- The `for` loop of `HighestRatedDispatch::chooseDriver` over the drivers from
index `i` on, with the loop variables `best` and `bestRating`. -/
def HighestRatedDispatch.loop :
    List (Driver K) → Nat → Option Nat → K → Option Nat
  | [], _, best, _ => best
  | driver :: rest, i, best, bestRating =>
    if !driver.available_ then
      HighestRatedDispatch.loop rest (i + 1) best bestRating
    else if driver.rating_ > bestRating then
      HighestRatedDispatch.loop rest (i + 1) (some i) driver.rating_
    else
      HighestRatedDispatch.loop rest (i + 1) best bestRating

/-- The method `HighestRatedDispatch::chooseDriver`; the rider is unused. -/
def HighestRatedDispatch.chooseDriver (drivers : List (Driver K)) (_rider : Rider K) :
    Option Nat :=
  HighestRatedDispatch.loop drivers 0 none (-1.0)

/-- The `for` loop of `NearestDriverDispatch::chooseDriver` over the drivers from
index `i` on, with the loop variables `closest` and `bestDistance`, in exact
arithmetic: distances are elements of the field and the top element is
`std::numeric_limits<double>::infinity()`, above every distance.  The loop in
binary64 arithmetic, where a computed distance is rounded and can itself be
infinity, is `NearestDriverDispatch.loop64`. -/
def NearestDriverDispatch.loop (sqrt : K → K) (rider : Rider K) :
    List (Driver K) → Nat → Option Nat → WithTop K → Option Nat
  | [], _, closest, _ => closest
  | driver :: rest, i, closest, bestDistance =>
    if !driver.available_ then
      NearestDriverDispatch.loop sqrt rider rest (i + 1) closest bestDistance
    else
      let dist := driver.position_.distanceTo sqrt rider.pickup_
      if (dist : WithTop K) < bestDistance then
        NearestDriverDispatch.loop sqrt rider rest (i + 1) (some i) (dist : WithTop K)
      else
        NearestDriverDispatch.loop sqrt rider rest (i + 1) closest bestDistance

/-- The method `NearestDriverDispatch::chooseDriver`. -/
def NearestDriverDispatch.chooseDriver (sqrt : K → K) (drivers : List (Driver K))
    (rider : Rider K) : Option Nat :=
  NearestDriverDispatch.loop sqrt rider drivers 0 none ⊤

/-- The virtual method `DispatchStrategy::chooseDriver`. -/
def DispatchStrategy.chooseDriver (sqrt : K → K) (self : DispatchStrategy)
    (drivers : List (Driver K)) (rider : Rider K) : Option Nat :=
  match self with
  | .highestRated => HighestRatedDispatch.chooseDriver drivers rider
  | .nearestDriver => NearestDriverDispatch.chooseDriver sqrt drivers rider

/-- The virtual method `DispatchStrategy::name`. -/
def DispatchStrategy.name (self : DispatchStrategy) : String :=
  match self with
  | .highestRated => "Highest rated"
  | .nearestDriver => "Nearest driver"

/-! ## Ride service -/

/-- The value of a mathematical integer as a 32-bit two's-complement `int`:
the representative of `n` modulo 2^32 in the range from -2147483648 to
2147483647. -/
def wrapInt32 (n : Int) : Int :=
  (n + 2147483648) % 4294967296 - 2147483648

/-- The constructor `RideService::RideService`; either argument may be null. -/
def RideService.new (pricingStrategy : Option (PricingStrategy K))
    (dispatchStrategy : Option DispatchStrategy) : RideService K :=
  { drivers_ := [], pricingStrategy_ := pricingStrategy,
    dispatchStrategy_ := dispatchStrategy, nextTripId_ := 1 }

/-- The method `RideService::addDriver`. -/
def RideService.addDriver (self : RideService K) (driver : Driver K) : RideService K :=
  { self with drivers_ := self.drivers_ ++ [driver] }

/-- The method `RideService::drivers`. -/
def RideService.drivers (self : RideService K) : List (Driver K) :=
  self.drivers_

/-- The method `RideService::setPricingStrategy`. -/
def RideService.setPricingStrategy (self : RideService K)
    (strategy : Option (PricingStrategy K)) : RideService K :=
  { self with pricingStrategy_ := strategy }

/-- The method `RideService::setDispatchStrategy`. -/
def RideService.setDispatchStrategy (self : RideService K)
    (strategy : Option DispatchStrategy) : RideService K :=
  { self with dispatchStrategy_ := strategy }

/-- The method `RideService::estimateDurationMinutes`. -/
def RideService.estimateDurationMinutes (distanceKm : K) : K :=
  let averageSpeedKmh : K := 40.0
  let hours : K := if distanceKm ≤ 0.01 then 0.05 else distanceKm / averageSpeedKmh
  hours * 60.0

/-- The method `RideService::requestTrip`: the returned optional trip and the
service state after the call.  `nextTripId_++` yields the old counter as the
trip id and stores the incremented counter as a 32-bit `int`. -/
def RideService.requestTrip (sqrt : K → K) (to_string : K → String)
    (self : RideService K) (rider : Rider K) : Option (Trip K) × RideService K :=
  match self.pricingStrategy_, self.dispatchStrategy_ with
  | some pricing, some dispatch =>
    match dispatch.chooseDriver sqrt self.drivers_ rider with
    | none => (none, self)
    | some chosen =>
      let drivers1 := List.modify (Driver.setAvailable false) chosen self.drivers_
      let distance := rider.pickup_.distanceTo sqrt rider.dropoff_
      let durationMinutes := RideService.estimateDurationMinutes distance
      let fare := pricing.calculateFare distance durationMinutes
      let trip : Trip K :=
        { id := self.nextTripId_, rider := rider, driver := chosen,
          distanceKm := distance, durationMinutes := durationMinutes, fare := fare,
          pricingModel := pricing.name to_string, dispatchModel := dispatch.name }
      let drivers2 := List.modify (Driver.moveTo rider.dropoff_) chosen drivers1
      let drivers3 := List.modify (Driver.setAvailable true) chosen drivers2
      (some trip,
        { self with drivers_ := drivers3, nextTripId_ := wrapInt32 (self.nextTripId_ + 1) })
  | _, _ => (none, self)

/-! ## Call sequences -/

/-- A call on the public interface of `RideService`. -/
inductive Call (K : Type) where
  | addDriver (driver : Driver K) : Call K
  | setPricingStrategy (strategy : Option (PricingStrategy K)) : Call K
  | setDispatchStrategy (strategy : Option DispatchStrategy) : Call K
  | requestTrip (rider : Rider K) : Call K

/-- Runs a sequence of calls from a service state: the results of the
`requestTrip` calls, in call order, and the final state. -/
def RideService.run (sqrt : K → K) (to_string : K → String) :
    RideService K → List (Call K) → List (Option (Trip K)) × RideService K
  | s, [] => ([], s)
  | s, Call.addDriver driver :: rest => RideService.run sqrt to_string (s.addDriver driver) rest
  | s, Call.setPricingStrategy strategy :: rest =>
    RideService.run sqrt to_string (s.setPricingStrategy strategy) rest
  | s, Call.setDispatchStrategy strategy :: rest =>
    RideService.run sqrt to_string (s.setDispatchStrategy strategy) rest
  | s, Call.requestTrip rider :: rest =>
    let r := RideService.requestTrip sqrt to_string s rider
    let out := RideService.run sqrt to_string r.2 rest
    (r.1 :: out.1, out.2)

/-! ## The sample data of `main` -/

/-- The three drivers added in `main`, in the order of the `addDriver` calls. -/
def main.drivers (K : Type) [LinearOrderedField K] : List (Driver K) :=
  [ { id_ := 1, name_ := "Maya", rating_ := 4.98, position_ := { x := 1.0, y := 2.0 } },
    { id_ := 2, name_ := "Leo", rating_ := 4.67, position_ := { x := 5.0, y := 1.0 } },
    { id_ := 3, name_ := "Amina", rating_ := 4.85, position_ := { x := 3.0, y := 4.0 } } ]

/-- The first rider of `main`. -/
def main.rider1 (K : Type) [LinearOrderedField K] : Rider K :=
  { id_ := 1, name_ := "Alex", pickup_ := { x := 0.0, y := 0.0 },
    dropoff_ := { x := 4.0, y := 3.0 } }

/-- The service of `main` after the three `addDriver` calls, for a given pair
of strategies. -/
def main.service (K : Type) [LinearOrderedField K] (pricingStrategy : Option (PricingStrategy K))
    (dispatchStrategy : Option DispatchStrategy) : RideService K :=
  (main.drivers K).foldl RideService.addDriver
    (RideService.new pricingStrategy dispatchStrategy)

/-- The sample service with the strategies swapped as `main` swaps them, to
Surge pricing with multiplier 1.8 and highest-rated dispatch, before any trip. -/
def main.service2 (K : Type) [LinearOrderedField K] : RideService K :=
  ((main.service K (some PricingStrategy.standard)
    (some DispatchStrategy.nearestDriver)).setPricingStrategy
      (some (PricingStrategy.surge 1.8))).setDispatchStrategy
      (some DispatchStrategy.highestRated)

/-- A pool whose only driver is available and rated -2.0. -/
def sample.lowRated (K : Type) [LinearOrderedField K] : List (Driver K) :=
  [ { id_ := 1, name_ := "Zed", rating_ := -2.0, position_ := { x := 0.0, y := 0.0 } } ]

/-- A pool whose only driver is unavailable. -/
def sample.busy (K : Type) [LinearOrderedField K] : List (Driver K) :=
  [ { id_ := 1, name_ := "Maya", rating_ := 4.98, available_ := false,
      position_ := { x := 1.0, y := 2.0 } } ]

/-- The third rider of `main`, a short hop. -/
def main.rider3 (K : Type) [LinearOrderedField K] : Rider K :=
  { id_ := 3, name_ := "Jamie", pickup_ := { x := 2.5, y := 2.0 },
    dropoff_ := { x := 2.0, y := 2.2 } }

/-- The second rider of `main`. -/
def main.rider2 (K : Type) [LinearOrderedField K] : Rider K :=
  { id_ := 2, name_ := "Sam", pickup_ := { x := 10.0, y := 5.0 },
    dropoff_ := { x := 2.0, y := 1.0 } }

/-- The calls `main` makes on its service, in order. -/
def main.calls (K : Type) [LinearOrderedField K] : List (Call K) :=
  (main.drivers K).map Call.addDriver ++
    [ Call.requestTrip (main.rider1 K),
      Call.setPricingStrategy (some (PricingStrategy.surge 1.8)),
      Call.setDispatchStrategy (some DispatchStrategy.highestRated),
      Call.requestTrip (main.rider2 K),
      Call.setPricingStrategy (some PricingStrategy.eco),
      Call.setDispatchStrategy (some DispatchStrategy.nearestDriver),
      Call.requestTrip (main.rider3 K) ]

/-- A rider whose pickup equals the dropoff. -/
def sample.stationary (K : Type) [LinearOrderedField K] : Rider K :=
  { id_ := 4, name_ := "Kim", pickup_ := { x := 2.0, y := 2.0 },
    dropoff_ := { x := 2.0, y := 2.0 } }

/-- The calls of a long session: the three drivers of `main` are added, then
the first rider of `main` requests `n` trips in a row. -/
def sample.manyTrips (K : Type) [LinearOrderedField K] (n : Nat) : List (Call K) :=
  (main.drivers K).map Call.addDriver ++ List.replicate n (Call.requestTrip (main.rider1 K))

/-! ## Binary64 arithmetic

The nearest-driver scan compares computed distances, so its outcome depends on
the rounding and the overflow of `double` arithmetic.  This section models
binary64 with round-to-nearest, ties-to-even, and the scan on top of it. -/

/-- A binary64 (`double`) value.  A finite value is the integer `units` times
2^-1074, the smallest positive `double`: every finite `double` is such a
multiple.  The sign of a zero is not kept, which no comparison observes. -/
inductive Binary64 where
  | finite (units : Int) : Binary64
  | infinite (negative : Bool) : Binary64
  | nan : Binary64
  deriving DecidableEq

/-- Rounds the non-negative value `n / 2^shift`, in units of 2^-1074, to the
nearest value with at most 53 significant bits and no bits below one unit,
ties to even.  `drop` is the number of low bits of `n` that do not fit. -/
def Binary64.roundUnits (n shift : Nat) : Nat :=
  let drop := max (Nat.size n - 53) shift
  let q := n / 2 ^ drop
  let rest := n % 2 ^ drop
  if 2 ^ drop < 2 * rest ∨ (2 * rest = 2 ^ drop ∧ q % 2 = 1) then
    (q + 1) * 2 ^ (drop - shift)
  else
    q * 2 ^ (drop - shift)

/-- A rounded magnitude with its sign as a `double`: magnitudes from 2^1024
(2^2098 units) on overflow to an infinity. -/
def Binary64.pack (negative : Bool) (units : Nat) : Binary64 :=
  if 2 ^ 2098 ≤ units then Binary64.infinite negative
  else if negative then Binary64.finite (-(units : Int))
  else Binary64.finite (units : Int)

/-- The `double` nearest to a natural number, as a decimal literal such as
`1e200` or `3.0` denotes it. -/
def Binary64.ofNat (n : Nat) : Binary64 :=
  Binary64.pack false (Binary64.roundUnits (n * 2 ^ 1074) 0)

/-- The value `std::numeric_limits<double>::infinity()`. -/
def Binary64.infinity : Binary64 :=
  Binary64.infinite false

/-- Addition of `double`s. -/
def Binary64.add : Binary64 → Binary64 → Binary64
  | Binary64.finite a, Binary64.finite b =>
    Binary64.pack (decide (a + b < 0)) (Binary64.roundUnits (a + b).natAbs 0)
  | Binary64.finite _, Binary64.infinite s => Binary64.infinite s
  | Binary64.infinite s, Binary64.finite _ => Binary64.infinite s
  | Binary64.infinite s, Binary64.infinite t =>
    if s = t then Binary64.infinite s else Binary64.nan
  | _, _ => Binary64.nan

/-- Subtraction of `double`s. -/
def Binary64.sub : Binary64 → Binary64 → Binary64
  | Binary64.finite a, Binary64.finite b =>
    Binary64.pack (decide (a - b < 0)) (Binary64.roundUnits (a - b).natAbs 0)
  | Binary64.finite _, Binary64.infinite s => Binary64.infinite (!s)
  | Binary64.infinite s, Binary64.finite _ => Binary64.infinite s
  | Binary64.infinite s, Binary64.infinite t =>
    if s = t then Binary64.nan else Binary64.infinite s
  | _, _ => Binary64.nan

/-- Multiplication of `double`s: the exact product of two finite values is
`a * b` units of 2^-2148, that is `a * b / 2^1074` units of 2^-1074. -/
def Binary64.mul : Binary64 → Binary64 → Binary64
  | Binary64.finite a, Binary64.finite b =>
    Binary64.pack (decide (a * b < 0)) (Binary64.roundUnits (a * b).natAbs 1074)
  | Binary64.finite a, Binary64.infinite s =>
    if a = 0 then Binary64.nan else Binary64.infinite (xor (decide (a < 0)) s)
  | Binary64.infinite s, Binary64.finite b =>
    if b = 0 then Binary64.nan else Binary64.infinite (xor s (decide (b < 0)))
  | Binary64.infinite s, Binary64.infinite t => Binary64.infinite (xor s t)
  | _, _ => Binary64.nan

/-- The function `std::sqrt` on `double`s, correctly rounded.  The square root
of `a` units is the square root of `a * 2^1074`, in units; `r` is its integer
part and `sticky` records a non-zero fraction, which is all that rounding to
53 bits needs of it. -/
def Binary64.sqrt : Binary64 → Binary64
  | Binary64.finite a =>
    if a < 0 then Binary64.nan
    else
      let n := a.toNat * 2 ^ 1074
      let r := Nat.sqrt n
      let sticky := if r * r = n then 0 else 1
      Binary64.pack false (Binary64.roundUnits (2 * r + sticky) 1)
  | Binary64.infinite s => if s then Binary64.nan else Binary64.infinite false
  | Binary64.nan => Binary64.nan

/-- The comparison `<` of `double`s; false whenever an operand is NaN. -/
def Binary64.lt : Binary64 → Binary64 → Bool
  | Binary64.finite a, Binary64.finite b => decide (a < b)
  | Binary64.finite _, Binary64.infinite s => !s
  | Binary64.infinite s, Binary64.finite _ => s
  | Binary64.infinite s, Binary64.infinite t => s && !t
  | _, _ => false

/-- The exact value of a finite `double` as a rational number (0 for the
others). -/
def Binary64.toRat : Binary64 → ℚ
  | Binary64.finite a => (a : ℚ) / 2 ^ 1074
  | _ => 0

/-- The method `Location::distanceTo` in binary64 arithmetic. -/
def Location.distanceTo64 (self other : Location Binary64) : Binary64 :=
  let dx := Binary64.sub self.x other.x
  let dy := Binary64.sub self.y other.y
  Binary64.sqrt (Binary64.add (Binary64.mul dx dx) (Binary64.mul dy dy))

/-- The `for` loop of `NearestDriverDispatch::chooseDriver` in binary64
arithmetic, over the drivers from index `i` on, with the loop variables
`closest` and `bestDistance`. -/
def NearestDriverDispatch.loop64 (rider : Rider Binary64) :
    List (Driver Binary64) → Nat → Option Nat → Binary64 → Option Nat
  | [], _, closest, _ => closest
  | driver :: rest, i, closest, bestDistance =>
    if !driver.available_ then
      NearestDriverDispatch.loop64 rider rest (i + 1) closest bestDistance
    else
      let dist := driver.position_.distanceTo64 rider.pickup_
      if Binary64.lt dist bestDistance then
        NearestDriverDispatch.loop64 rider rest (i + 1) (some i) dist
      else
        NearestDriverDispatch.loop64 rider rest (i + 1) closest bestDistance

/-- The method `NearestDriverDispatch::chooseDriver` in binary64 arithmetic. -/
def NearestDriverDispatch.chooseDriver64 (drivers : List (Driver Binary64))
    (rider : Rider Binary64) : Option Nat :=
  NearestDriverDispatch.loop64 rider drivers 0 none Binary64.infinity

/-- The coordinates of a location of `double`s as exact numbers of a field. -/
def Location.exact (F : Type) [DivisionRing F] (self : Location Binary64) : Location F :=
  { x := ((Binary64.toRat self.x : ℚ) : F), y := ((Binary64.toRat self.y : ℚ) : F) }

/-- Two available drivers far out on the x axis, the first one unit off it
and the second on it: Ana at (134217728, 1) and Ben at (134217728, 0). -/
def sample.farPool : List (Driver Binary64) :=
  [ { id_ := 1, name_ := "Ana", rating_ := Binary64.ofNat 5,
      position_ := { x := Binary64.ofNat 134217728, y := Binary64.ofNat 1 } },
    { id_ := 2, name_ := "Ben", rating_ := Binary64.ofNat 5,
      position_ := { x := Binary64.ofNat 134217728, y := Binary64.ofNat 0 } } ]

/-- A pool whose only driver is available and positioned at (1e200, 0). -/
def sample.overflowPool : List (Driver Binary64) :=
  [ { id_ := 1, name_ := "Ana", rating_ := Binary64.ofNat 5,
      position_ := { x := Binary64.ofNat (10 ^ 200), y := Binary64.ofNat 0 } } ]

/-- A rider picked up at the origin, going to (4, 3). -/
def sample.originRider : Rider Binary64 :=
  { id_ := 1, name_ := "Alex",
    pickup_ := { x := Binary64.ofNat 0, y := Binary64.ofNat 0 },
    dropoff_ := { x := Binary64.ofNat 4, y := Binary64.ofNat 3 } }

/-! ## Loop invariants of the two dispatch scans -/

/-- Invariant of the highest-rated scan: either no available driver of the
remaining pool beats `br` and `best` is kept, or the scan returns the first
available driver of maximal rating, and that rating beats `br`. -/
theorem HighestRatedDispatch.hr_loop_spec (ds : List (Driver K)) :
    ∀ (i : Nat) (best : Option Nat) (br : K),
      (HighestRatedDispatch.loop ds i best br = best ∧
        ∀ (k : Nat) (e : Driver K), ds[k]? = some e → e.available_ = true → e.rating_ ≤ br) ∨
      (∃ j d, HighestRatedDispatch.loop ds i best br = some (i + j) ∧ ds[j]? = some d ∧
        d.available_ = true ∧ br < d.rating_ ∧
        (∀ (k : Nat) (e : Driver K), ds[k]? = some e → e.available_ = true → e.rating_ ≤ d.rating_) ∧
        (∀ (k : Nat) (e : Driver K), k < j → ds[k]? = some e → e.available_ = true → e.rating_ < d.rating_)) := by
  induction ds with
  | nil =>
    intro i best br
    left
    exact ⟨rfl, fun k e h => by simp at h⟩
  | cons a rest ih =>
    intro i best br
    by_cases hav : a.available_ = true
    · by_cases hgt : a.rating_ > br
      · have hstep : HighestRatedDispatch.loop (a :: rest) i best br =
            HighestRatedDispatch.loop rest (i + 1) (some i) a.rating_ := by
          simp [HighestRatedDispatch.loop, hav, hgt]
        rcases ih (i + 1) (some i) a.rating_ with ⟨hres, hall⟩ | ⟨j, d, hres, hj, hd, hlt, hall, hfirst⟩
        · right
          refine ⟨0, a, by rw [hstep, hres]; rfl, by simp, hav, hgt, ?_, ?_⟩
          · intro k e hk he
            cases k with
            | zero => simp at hk; subst hk; exact le_refl _
            | succ k => exact hall k e (by simpa using hk) he
          · intro k e hk
            exact absurd hk (Nat.not_lt_zero k)
        · right
          refine ⟨j + 1, d, by rw [hstep, hres]; congr 1; omega, by simpa using hj, hd,
            lt_trans hgt hlt, ?_, ?_⟩
          · intro k e hk he
            cases k with
            | zero => simp at hk; subst hk; exact le_of_lt hlt
            | succ k => exact hall k e (by simpa using hk) he
          · intro k e hkj hk he
            cases k with
            | zero => simp at hk; subst hk; exact hlt
            | succ k => exact hfirst k e (by omega) (by simpa using hk) he
      · have hstep : HighestRatedDispatch.loop (a :: rest) i best br =
            HighestRatedDispatch.loop rest (i + 1) best br := by
          simp [HighestRatedDispatch.loop, hav, hgt]
        have hle : a.rating_ ≤ br := not_lt.mp hgt
        rcases ih (i + 1) best br with ⟨hres, hall⟩ | ⟨j, d, hres, hj, hd, hlt, hall, hfirst⟩
        · left
          refine ⟨by rw [hstep, hres], ?_⟩
          intro k e hk he
          cases k with
          | zero => simp at hk; subst hk; exact hle
          | succ k => exact hall k e (by simpa using hk) he
        · right
          refine ⟨j + 1, d, by rw [hstep, hres]; congr 1; omega, by simpa using hj, hd,
            hlt, ?_, ?_⟩
          · intro k e hk he
            cases k with
            | zero => simp at hk; subst hk; exact le_of_lt (lt_of_le_of_lt hle hlt)
            | succ k => exact hall k e (by simpa using hk) he
          · intro k e hkj hk he
            cases k with
            | zero => simp at hk; subst hk; exact lt_of_le_of_lt hle hlt
            | succ k => exact hfirst k e (by omega) (by simpa using hk) he
    · have hstep : HighestRatedDispatch.loop (a :: rest) i best br =
          HighestRatedDispatch.loop rest (i + 1) best br := by
        simp [HighestRatedDispatch.loop, hav]
      rcases ih (i + 1) best br with ⟨hres, hall⟩ | ⟨j, d, hres, hj, hd, hlt, hall, hfirst⟩
      · left
        refine ⟨by rw [hstep, hres], ?_⟩
        intro k e hk he
        cases k with
        | zero => simp at hk; subst hk; exact absurd he hav
        | succ k => exact hall k e (by simpa using hk) he
      · right
        refine ⟨j + 1, d, by rw [hstep, hres]; congr 1; omega, by simpa using hj, hd,
          hlt, ?_, ?_⟩
        · intro k e hk he
          cases k with
          | zero => simp at hk; subst hk; exact absurd he hav
          | succ k => exact hall k e (by simpa using hk) he
        · intro k e hkj hk he
          cases k with
          | zero => simp at hk; subst hk; exact absurd he hav
          | succ k => exact hfirst k e (by omega) (by simpa using hk) he

/-- Invariant of the nearest-driver scan: either no available driver of the
remaining pool is strictly nearer than `bd` and `closest` is kept, or the scan
returns the first available driver at minimal distance, nearer than `bd`. -/
theorem NearestDriverDispatch.nd_loop_spec (sqrt : K → K) (rider : Rider K) (ds : List (Driver K)) :
    ∀ (i : Nat) (closest : Option Nat) (bd : WithTop K),
      (NearestDriverDispatch.loop sqrt rider ds i closest bd = closest ∧
        ∀ (k : Nat) (e : Driver K), ds[k]? = some e → e.available_ = true →
          bd ≤ ((e.position_.distanceTo sqrt rider.pickup_ : K) : WithTop K)) ∨
      (∃ j d, NearestDriverDispatch.loop sqrt rider ds i closest bd = some (i + j) ∧
        ds[j]? = some d ∧ d.available_ = true ∧
        ((d.position_.distanceTo sqrt rider.pickup_ : K) : WithTop K) < bd ∧
        (∀ (k : Nat) (e : Driver K), ds[k]? = some e → e.available_ = true →
          d.position_.distanceTo sqrt rider.pickup_ ≤ e.position_.distanceTo sqrt rider.pickup_) ∧
        (∀ (k : Nat) (e : Driver K), k < j → ds[k]? = some e → e.available_ = true →
          d.position_.distanceTo sqrt rider.pickup_ < e.position_.distanceTo sqrt rider.pickup_)) := by
  induction ds with
  | nil =>
    intro i closest bd
    left
    exact ⟨rfl, fun k e h => by simp at h⟩
  | cons a rest ih =>
    intro i closest bd
    by_cases hav : a.available_ = true
    · by_cases hlt0 : ((a.position_.distanceTo sqrt rider.pickup_ : K) : WithTop K) < bd
      · have hstep : NearestDriverDispatch.loop sqrt rider (a :: rest) i closest bd =
            NearestDriverDispatch.loop sqrt rider rest (i + 1) (some i)
              ((a.position_.distanceTo sqrt rider.pickup_ : K) : WithTop K) := by
          simp [NearestDriverDispatch.loop, hav, hlt0]
        rcases ih (i + 1) (some i) ((a.position_.distanceTo sqrt rider.pickup_ : K) : WithTop K)
          with ⟨hres, hall⟩ | ⟨j, d, hres, hj, hd, hlt, hall, hfirst⟩
        · right
          refine ⟨0, a, by rw [hstep, hres]; rfl, by simp, hav, hlt0, ?_, ?_⟩
          · intro k e hk he
            cases k with
            | zero => simp at hk; subst hk; exact le_refl _
            | succ k => exact WithTop.coe_le_coe.mp (hall k e (by simpa using hk) he)
          · intro k e hk
            exact absurd hk (Nat.not_lt_zero k)
        · have hlt1 := WithTop.coe_lt_coe.mp hlt
          right
          refine ⟨j + 1, d, by rw [hstep, hres]; congr 1; omega, by simpa using hj, hd,
            lt_trans hlt hlt0, ?_, ?_⟩
          · intro k e hk he
            cases k with
            | zero => simp at hk; subst hk; exact le_of_lt hlt1
            | succ k => exact hall k e (by simpa using hk) he
          · intro k e hkj hk he
            cases k with
            | zero => simp at hk; subst hk; exact hlt1
            | succ k => exact hfirst k e (by omega) (by simpa using hk) he
      · have hstep : NearestDriverDispatch.loop sqrt rider (a :: rest) i closest bd =
            NearestDriverDispatch.loop sqrt rider rest (i + 1) closest bd := by
          simp [NearestDriverDispatch.loop, hav, hlt0]
        have hle : bd ≤ ((a.position_.distanceTo sqrt rider.pickup_ : K) : WithTop K) :=
          not_lt.mp hlt0
        rcases ih (i + 1) closest bd with ⟨hres, hall⟩ | ⟨j, d, hres, hj, hd, hlt, hall, hfirst⟩
        · left
          refine ⟨by rw [hstep, hres], ?_⟩
          intro k e hk he
          cases k with
          | zero => simp at hk; subst hk; exact hle
          | succ k => exact hall k e (by simpa using hk) he
        · have hlt1 := WithTop.coe_lt_coe.mp (lt_of_lt_of_le hlt hle)
          right
          refine ⟨j + 1, d, by rw [hstep, hres]; congr 1; omega, by simpa using hj, hd,
            hlt, ?_, ?_⟩
          · intro k e hk he
            cases k with
            | zero => simp at hk; subst hk; exact le_of_lt hlt1
            | succ k => exact hall k e (by simpa using hk) he
          · intro k e hkj hk he
            cases k with
            | zero => simp at hk; subst hk; exact hlt1
            | succ k => exact hfirst k e (by omega) (by simpa using hk) he
    · have hstep : NearestDriverDispatch.loop sqrt rider (a :: rest) i closest bd =
          NearestDriverDispatch.loop sqrt rider rest (i + 1) closest bd := by
        simp [NearestDriverDispatch.loop, hav]
      rcases ih (i + 1) closest bd with ⟨hres, hall⟩ | ⟨j, d, hres, hj, hd, hlt, hall, hfirst⟩
      · left
        refine ⟨by rw [hstep, hres], ?_⟩
        intro k e hk he
        cases k with
        | zero => simp at hk; subst hk; exact absurd he hav
        | succ k => exact hall k e (by simpa using hk) he
      · right
        refine ⟨j + 1, d, by rw [hstep, hres]; congr 1; omega, by simpa using hj, hd,
          hlt, ?_, ?_⟩
        · intro k e hk he
          cases k with
          | zero => simp at hk; subst hk; exact absurd he hav
          | succ k => exact hall k e (by simpa using hk) he
        · intro k e hkj hk he
          cases k with
          | zero => simp at hk; subst hk; exact absurd he hav
          | succ k => exact hfirst k e (by omega) (by simpa using hk) he

/-! ## Consequences for `chooseDriver` -/

/-- A driver returned by the highest-rated dispatch is in the pool, available,
rated above the initial bound, of maximal rating, and first among those. -/
theorem HighestRatedDispatch.hr_chooseDriver_some (drivers : List (Driver K)) (rider : Rider K)
    (i : Nat) (h : HighestRatedDispatch.chooseDriver drivers rider = some i) :
    ∃ d, drivers[i]? = some d ∧ d.available_ = true ∧ (-1.0 : K) < d.rating_ ∧
      (∀ (k : Nat) (e : Driver K), drivers[k]? = some e → e.available_ = true →
        e.rating_ ≤ d.rating_) ∧
      (∀ (k : Nat) (e : Driver K), k < i → drivers[k]? = some e → e.available_ = true →
        e.rating_ < d.rating_) := by
  unfold HighestRatedDispatch.chooseDriver at h
  rcases HighestRatedDispatch.hr_loop_spec drivers 0 none (-1.0 : K) with
    ⟨hres, _⟩ | ⟨j, d, hres, hj, hd, hlt, hall, hfirst⟩
  · rw [hres] at h
    exact absurd h (by simp)
  · rw [hres] at h
    have hij : j = i := by simpa using h
    subst hij
    exact ⟨d, hj, hd, hlt, hall, hfirst⟩

/-- The highest-rated dispatch returns no driver exactly when no available
driver is rated above the initial bound `-1.0`. -/
theorem HighestRatedDispatch.hr_chooseDriver_eq_none_iff (drivers : List (Driver K))
    (rider : Rider K) :
    HighestRatedDispatch.chooseDriver drivers rider = none ↔
      ∀ (k : Nat) (e : Driver K), drivers[k]? = some e → e.available_ = true →
        e.rating_ ≤ (-1.0 : K) := by
  unfold HighestRatedDispatch.chooseDriver
  rcases HighestRatedDispatch.hr_loop_spec drivers 0 none (-1.0 : K) with
    ⟨hres, hall⟩ | ⟨j, d, hres, hj, hd, hlt, _, _⟩
  · exact ⟨fun _ => hall, fun _ => hres⟩
  · constructor
    · intro h
      rw [hres] at h
      exact absurd h (by simp)
    · intro h
      exact absurd (h j d hj hd) (not_le.mpr hlt)

/-- A driver returned by the nearest-driver dispatch is in the pool, available,
at minimal distance from the pickup, and first among those. -/
theorem NearestDriverDispatch.nd_chooseDriver_some (sqrt : K → K) (drivers : List (Driver K))
    (rider : Rider K) (i : Nat)
    (h : NearestDriverDispatch.chooseDriver sqrt drivers rider = some i) :
    ∃ d, drivers[i]? = some d ∧ d.available_ = true ∧
      (∀ (k : Nat) (e : Driver K), drivers[k]? = some e → e.available_ = true →
        d.position_.distanceTo sqrt rider.pickup_ ≤ e.position_.distanceTo sqrt rider.pickup_) ∧
      (∀ (k : Nat) (e : Driver K), k < i → drivers[k]? = some e → e.available_ = true →
        d.position_.distanceTo sqrt rider.pickup_ < e.position_.distanceTo sqrt rider.pickup_) := by
  unfold NearestDriverDispatch.chooseDriver at h
  rcases NearestDriverDispatch.nd_loop_spec sqrt rider drivers 0 none ⊤ with
    ⟨hres, _⟩ | ⟨j, d, hres, hj, hd, _, hall, hfirst⟩
  · rw [hres] at h
    exact absurd h (by simp)
  · rw [hres] at h
    have hij : j = i := by simpa using h
    subst hij
    exact ⟨d, hj, hd, hall, hfirst⟩

/-- The nearest-driver dispatch returns no driver exactly when no driver of the
pool is available. -/
theorem NearestDriverDispatch.nd_chooseDriver_eq_none_iff (sqrt : K → K)
    (drivers : List (Driver K)) (rider : Rider K) :
    NearestDriverDispatch.chooseDriver sqrt drivers rider = none ↔
      ∀ (k : Nat) (e : Driver K), drivers[k]? = some e → e.available_ = false := by
  unfold NearestDriverDispatch.chooseDriver
  rcases NearestDriverDispatch.nd_loop_spec sqrt rider drivers 0 none ⊤ with
    ⟨hres, hall⟩ | ⟨j, d, hres, hj, hd, _, _, _⟩
  · refine ⟨fun _ k e hk => ?_, fun _ => hres⟩
    cases hav : e.available_ with
    | false => rfl
    | true => exact absurd (hall k e hk hav) (not_le.mpr (WithTop.coe_lt_top _))
  · constructor
    · intro h
      rw [hres] at h
      exact absurd h (by simp)
    · intro h
      have := h j d hj
      rw [hd] at this
      exact absurd this (by simp)

/-- Either dispatch strategy returns an index of the pool. -/
theorem DispatchStrategy.chooseDriver_lt (sqrt : K → K) (dispatch : DispatchStrategy)
    (drivers : List (Driver K)) (rider : Rider K) (i : Nat)
    (h : dispatch.chooseDriver sqrt drivers rider = some i) :
    ∃ d, drivers[i]? = some d := by
  cases dispatch with
  | highestRated =>
    obtain ⟨d, hd, _⟩ := HighestRatedDispatch.hr_chooseDriver_some drivers rider i h
    exact ⟨d, hd⟩
  | nearestDriver =>
    obtain ⟨d, hd, _⟩ := NearestDriverDispatch.nd_chooseDriver_some sqrt drivers rider i h
    exact ⟨d, hd⟩

/-! ## The trip transaction, case by case -/

/-- The absence paths of `requestTrip` return the state untouched. -/
theorem RideService.requestTrip_none (sqrt : K → K) (to_string : K → String)
    (s : RideService K) (rider : Rider K)
    (h : s.pricingStrategy_ = none ∨ s.dispatchStrategy_ = none ∨
      ∃ dispatch, s.dispatchStrategy_ = some dispatch ∧
        dispatch.chooseDriver sqrt s.drivers_ rider = none) :
    RideService.requestTrip sqrt to_string s rider = (none, s) := by
  unfold RideService.requestTrip
  rcases h with h | h | ⟨dispatch, h1, h2⟩
  · rw [h]
  · rw [h]
    cases s.pricingStrategy_ <;> rfl
  · rw [h1]
    cases s.pricingStrategy_ with
    | none => rfl
    | some pricing => simp only [h2]

/-- The success path of `requestTrip`, spelled out. -/
theorem RideService.requestTrip_some (sqrt : K → K) (to_string : K → String)
    (s : RideService K) (rider : Rider K) (pricing : PricingStrategy K)
    (dispatch : DispatchStrategy) (chosen : Nat)
    (hp : s.pricingStrategy_ = some pricing) (hd : s.dispatchStrategy_ = some dispatch)
    (hc : dispatch.chooseDriver sqrt s.drivers_ rider = some chosen) :
    RideService.requestTrip sqrt to_string s rider =
      (some
        { id := s.nextTripId_, rider := rider, driver := chosen,
          distanceKm := rider.pickup_.distanceTo sqrt rider.dropoff_,
          durationMinutes :=
            RideService.estimateDurationMinutes (rider.pickup_.distanceTo sqrt rider.dropoff_),
          fare := pricing.calculateFare (rider.pickup_.distanceTo sqrt rider.dropoff_)
            (RideService.estimateDurationMinutes (rider.pickup_.distanceTo sqrt rider.dropoff_)),
          pricingModel := pricing.name to_string, dispatchModel := dispatch.name },
       { s with
          drivers_ := List.modify (Driver.setAvailable true) chosen
            (List.modify (Driver.moveTo rider.dropoff_) chosen
              (List.modify (Driver.setAvailable false) chosen s.drivers_)),
          nextTripId_ := wrapInt32 (s.nextTripId_ + 1) }) := by
  unfold RideService.requestTrip
  rw [hp, hd]
  simp only [hc]

/-- Every call of `requestTrip` takes one of the two shapes above. -/
theorem RideService.requestTrip_cases (sqrt : K → K) (to_string : K → String)
    (s : RideService K) (rider : Rider K) :
    (RideService.requestTrip sqrt to_string s rider = (none, s) ∧
      (s.pricingStrategy_ = none ∨ s.dispatchStrategy_ = none ∨
        ∃ dispatch, s.dispatchStrategy_ = some dispatch ∧
          dispatch.chooseDriver sqrt s.drivers_ rider = none)) ∨
    (∃ pricing dispatch chosen, s.pricingStrategy_ = some pricing ∧
      s.dispatchStrategy_ = some dispatch ∧
      dispatch.chooseDriver sqrt s.drivers_ rider = some chosen) := by
  cases hp : s.pricingStrategy_ with
  | none => exact Or.inl ⟨RideService.requestTrip_none sqrt to_string s rider (Or.inl hp), Or.inl rfl⟩
  | some pricing =>
    cases hd : s.dispatchStrategy_ with
    | none =>
      exact Or.inl ⟨RideService.requestTrip_none sqrt to_string s rider (Or.inr (Or.inl hd)),
        Or.inr (Or.inl rfl)⟩
    | some dispatch =>
      cases hc : dispatch.chooseDriver sqrt s.drivers_ rider with
      | none =>
        exact Or.inl ⟨RideService.requestTrip_none sqrt to_string s rider
          (Or.inr (Or.inr ⟨dispatch, hd, hc⟩)), Or.inr (Or.inr ⟨dispatch, rfl, hc⟩)⟩
      | some chosen => exact Or.inr ⟨pricing, dispatch, chosen, rfl, rfl, hc⟩

/-! ## Evaluation on the sample data -/

/-- The pool of the sample service is the list of sample drivers. -/
theorem main.service_eq (K : Type) [LinearOrderedField K]
    (pricingStrategy : Option (PricingStrategy K)) (dispatchStrategy : Option DispatchStrategy) :
    main.service K pricingStrategy dispatchStrategy =
      { drivers_ := main.drivers K, pricingStrategy_ := pricingStrategy,
        dispatchStrategy_ := dispatchStrategy, nextTripId_ := 1 } := by
  rfl

/-- On the sample pool the highest-rated dispatch picks Maya (index 0). -/
theorem main.highestRated_choice (rider : Rider ℝ) :
    HighestRatedDispatch.chooseDriver (main.drivers ℝ) rider = some 0 := by
  norm_num [HighestRatedDispatch.chooseDriver, HighestRatedDispatch.loop, main.drivers]

/-- On the sample pool the nearest-driver dispatch picks Maya (index 0) for
the first rider. -/
theorem main.nearestDriver_choice :
    NearestDriverDispatch.chooseDriver Real.sqrt (main.drivers ℝ) (main.rider1 ℝ) = some 0 := by
  simp [NearestDriverDispatch.chooseDriver, NearestDriverDispatch.loop, main.drivers,
    main.rider1, Location.distanceTo]
  norm_num

/-! ## The trip transaction -/

/-- C1: whenever `requestTrip` returns a trip, the driver that trip refers to
is, in the state after the call, available and positioned at the rider's
dropoff location. -/
theorem C1_requestTrip_driver_available_at_dropoff (sqrt : K → K) (to_string : K → String)
    (s : RideService K) (rider : Rider K) (t : Trip K) (s1 : RideService K)
    (h : RideService.requestTrip sqrt to_string s rider = (some t, s1)) :
    ∃ d, s1.drivers_[t.driver]? = some d ∧ d.available_ = true ∧
      d.position_ = rider.dropoff_ := by
  rcases RideService.requestTrip_cases sqrt to_string s rider with
    ⟨hnone, _⟩ | ⟨pricing, dispatch, chosen, hp, hd, hc⟩
  · rw [hnone] at h
    exact absurd (congrArg Prod.fst h) (by simp)
  · rw [RideService.requestTrip_some sqrt to_string s rider pricing dispatch chosen hp hd hc] at h
    obtain ⟨d0, hd0⟩ := DispatchStrategy.chooseDriver_lt sqrt dispatch s.drivers_ rider chosen hc
    have ht := Option.some.inj (congrArg Prod.fst h)
    have hs := congrArg Prod.snd h
    simp only at ht hs
    subst ht
    subst hs
    refine ⟨Driver.setAvailable true (Driver.moveTo rider.dropoff_
      (Driver.setAvailable false d0)), ?_, rfl, rfl⟩
    simp [List.getElem?_modify_eq, hd0]

/-- Witness for C1 on the sample service with Standard pricing and
nearest-driver dispatch. -/
theorem C1_requestTrip_driver_available_at_dropoff_witness :
    ∃ t s1,
      RideService.requestTrip Real.sqrt (fun _ => "")
        (main.service ℝ (some PricingStrategy.standard) (some DispatchStrategy.nearestDriver))
        (main.rider1 ℝ) = (some t, s1) ∧
      ∃ d, s1.drivers_[t.driver]? = some d ∧ d.available_ = true ∧
        d.position_ = (main.rider1 ℝ).dropoff_ :=
  ⟨_, _,
    RideService.requestTrip_some Real.sqrt (fun _ => "") _ (main.rider1 ℝ)
      PricingStrategy.standard DispatchStrategy.nearestDriver 0 rfl rfl main.nearestDriver_choice,
    C1_requestTrip_driver_available_at_dropoff Real.sqrt (fun _ => "") _ (main.rider1 ℝ) _ _
      (RideService.requestTrip_some Real.sqrt (fun _ => "") _ (main.rider1 ℝ)
        PricingStrategy.standard DispatchStrategy.nearestDriver 0 rfl rfl
        main.nearestDriver_choice)⟩

/-- C3: when the pricing strategy or the dispatch strategy is unset, or the
active dispatch strategy returns no driver, `requestTrip` returns absence and
the service state is unchanged: same driver pool (every driver, in the same
order), same strategy slots, same next trip id. -/
theorem C3_requestTrip_absent_leaves_state (sqrt : K → K) (to_string : K → String)
    (s : RideService K) (rider : Rider K)
    (h : s.pricingStrategy_ = none ∨ s.dispatchStrategy_ = none ∨
      ∃ dispatch, s.dispatchStrategy_ = some dispatch ∧
        dispatch.chooseDriver sqrt s.drivers_ rider = none) :
    (RideService.requestTrip sqrt to_string s rider).1 = none ∧
    (RideService.requestTrip sqrt to_string s rider).2.drivers_ = s.drivers_ ∧
    (RideService.requestTrip sqrt to_string s rider).2.pricingStrategy_ = s.pricingStrategy_ ∧
    (RideService.requestTrip sqrt to_string s rider).2.dispatchStrategy_ = s.dispatchStrategy_ ∧
    (RideService.requestTrip sqrt to_string s rider).2.nextTripId_ = s.nextTripId_ := by
  rw [RideService.requestTrip_none sqrt to_string s rider h]
  exact ⟨rfl, rfl, rfl, rfl, rfl⟩

/-- Witness for C3: the sample service with Eco pricing and no dispatch strategy. -/
theorem C3_requestTrip_absent_leaves_state_witness :
    ((main.service ℝ (some PricingStrategy.eco) none).pricingStrategy_ = none ∨
      (main.service ℝ (some PricingStrategy.eco) none).dispatchStrategy_ = none ∨
      ∃ dispatch, (main.service ℝ (some PricingStrategy.eco) none).dispatchStrategy_ =
          some dispatch ∧
        dispatch.chooseDriver Real.sqrt (main.service ℝ (some PricingStrategy.eco) none).drivers_
          (main.rider1 ℝ) = none) ∧
    (RideService.requestTrip Real.sqrt (fun _ => "")
      (main.service ℝ (some PricingStrategy.eco) none) (main.rider1 ℝ)).1 = none ∧
    (RideService.requestTrip Real.sqrt (fun _ => "")
      (main.service ℝ (some PricingStrategy.eco) none) (main.rider1 ℝ)).2.drivers_ =
        main.drivers ℝ :=
  ⟨Or.inr (Or.inl rfl),
    (C3_requestTrip_absent_leaves_state Real.sqrt (fun _ => "")
      (main.service ℝ (some PricingStrategy.eco) none) (main.rider1 ℝ) (Or.inr (Or.inl rfl))).1,
    (C3_requestTrip_absent_leaves_state Real.sqrt (fun _ => "")
      (main.service ℝ (some PricingStrategy.eco) none) (main.rider1 ℝ)
      (Or.inr (Or.inl rfl))).2.1⟩

/-- C4: a trip returned by `requestTrip` has the pickup-to-dropoff distance,
the estimated duration of that distance, the fare of the pricing strategy in
the slot at the call, the names of the two strategies in the slots at the
call, and the driver returned by the dispatch strategy on the pool before the
call; the slots hold whatever the setters last stored. -/
theorem C4_trip_fields (sqrt : K → K) (to_string : K → String)
    (s : RideService K) (rider : Rider K) (t : Trip K) (s1 : RideService K)
    (h : RideService.requestTrip sqrt to_string s rider = (some t, s1)) :
    (∃ pricing dispatch,
      s.pricingStrategy_ = some pricing ∧ s.dispatchStrategy_ = some dispatch ∧
      t.distanceKm = rider.pickup_.distanceTo sqrt rider.dropoff_ ∧
      t.durationMinutes = RideService.estimateDurationMinutes t.distanceKm ∧
      t.fare = pricing.calculateFare t.distanceKm t.durationMinutes ∧
      t.pricingModel = pricing.name to_string ∧
      t.dispatchModel = dispatch.name ∧
      dispatch.chooseDriver sqrt s.drivers_ rider = some t.driver) ∧
    (∀ strategy, (s.setPricingStrategy strategy).pricingStrategy_ = strategy ∧
      (s.setPricingStrategy strategy).dispatchStrategy_ = s.dispatchStrategy_) ∧
    (∀ strategy, (s.setDispatchStrategy strategy).dispatchStrategy_ = strategy ∧
      (s.setDispatchStrategy strategy).pricingStrategy_ = s.pricingStrategy_) := by
  refine ⟨?_, fun _ => ⟨rfl, rfl⟩, fun _ => ⟨rfl, rfl⟩⟩
  rcases RideService.requestTrip_cases sqrt to_string s rider with
    ⟨hnone, _⟩ | ⟨pricing, dispatch, chosen, hp, hd, hc⟩
  · rw [hnone] at h
    exact absurd (congrArg Prod.fst h) (by simp)
  · rw [RideService.requestTrip_some sqrt to_string s rider pricing dispatch chosen hp hd hc] at h
    have ht := Option.some.inj (congrArg Prod.fst h)
    simp only at ht
    subst ht
    exact ⟨pricing, dispatch, hp, hd, rfl, rfl, rfl, rfl, rfl, hc⟩

/-- Witness for C4: after swapping the sample service to Surge pricing and
highest-rated dispatch, the next trip is priced and dispatched by those. -/
theorem C4_trip_fields_witness :
    ∃ t s1,
      RideService.requestTrip Real.sqrt (fun _ => "1.800000") (main.service2 ℝ)
        (main.rider1 ℝ) = (some t, s1) ∧
      ∃ pricing dispatch,
        (main.service2 ℝ).pricingStrategy_ = some pricing ∧
        (main.service2 ℝ).dispatchStrategy_ = some dispatch ∧
        t.distanceKm = (main.rider1 ℝ).pickup_.distanceTo Real.sqrt (main.rider1 ℝ).dropoff_ ∧
        t.durationMinutes = RideService.estimateDurationMinutes t.distanceKm ∧
        t.fare = pricing.calculateFare t.distanceKm t.durationMinutes ∧
        t.pricingModel = pricing.name (fun _ => "1.800000") ∧
        t.dispatchModel = dispatch.name ∧
        dispatch.chooseDriver Real.sqrt (main.service2 ℝ).drivers_ (main.rider1 ℝ) =
          some t.driver :=
  ⟨_, _,
    RideService.requestTrip_some Real.sqrt (fun _ => "1.800000") (main.service2 ℝ)
      (main.rider1 ℝ) (PricingStrategy.surge 1.8) DispatchStrategy.highestRated 0 rfl rfl
      (main.highestRated_choice (main.rider1 ℝ)),
    (C4_trip_fields Real.sqrt (fun _ => "1.800000") (main.service2 ℝ) (main.rider1 ℝ) _ _
      (RideService.requestTrip_some Real.sqrt (fun _ => "1.800000") (main.service2 ℝ)
        (main.rider1 ℝ) (PricingStrategy.surge 1.8) DispatchStrategy.highestRated 0 rfl rfl
        (main.highestRated_choice (main.rider1 ℝ)))).1⟩

/-! ## Dispatch strategies -/

/-- C5, evaluated at the failing input: the pool whose only driver is
available and rated -2.0 has an available driver, and
`HighestRatedDispatch::chooseDriver` returns absence on it, because the scan
starts from `bestRating = -1.0`. -/
theorem C5_highestRated_absent_with_available_driver :
    (∃ d ∈ (sample.lowRated ℝ), d.available_ = true) ∧
    HighestRatedDispatch.chooseDriver
      (sample.lowRated ℝ) (main.rider1 ℝ) = none := by
  refine ⟨⟨_, List.mem_singleton.mpr rfl, rfl⟩, ?_⟩
  norm_num [HighestRatedDispatch.chooseDriver, HighestRatedDispatch.loop, sample.lowRated]

/-- C6: a driver returned by `HighestRatedDispatch::chooseDriver` is an element
of the pool, is available, is rated at least as high as every available driver,
and comes first in pool order among the available drivers of that rating; the
result does not depend on the rider. -/
theorem C6_highestRated_choice (drivers : List (Driver K)) (rider : Rider K) :
    (∀ i, HighestRatedDispatch.chooseDriver drivers rider = some i →
      ∃ d, drivers[i]? = some d ∧ d ∈ drivers ∧ d.available_ = true ∧
        (∀ e ∈ drivers, e.available_ = true → e.rating_ ≤ d.rating_) ∧
        (∀ (k : Nat) (e : Driver K), drivers[k]? = some e → e.available_ = true →
          e.rating_ = d.rating_ → i ≤ k)) ∧
    (∀ rider2 : Rider K, HighestRatedDispatch.chooseDriver drivers rider2 =
      HighestRatedDispatch.chooseDriver drivers rider) := by
  refine ⟨?_, fun _ => rfl⟩
  intro i h
  obtain ⟨d, hd, hav, _, hall, hfirst⟩ :=
    HighestRatedDispatch.hr_chooseDriver_some drivers rider i h
  refine ⟨d, hd, List.getElem?_mem hd, hav, ?_, ?_⟩
  · intro e he heav
    obtain ⟨k, hk⟩ := List.getElem?_of_mem he
    exact hall k e hk heav
  · intro k e hk heav heq
    by_contra hlt
    exact absurd heq (ne_of_lt (hfirst k e (not_le.mp hlt) hk heav))

/-- Witness for C6: on ratings 4.98, 4.67, 4.85, all available, the driver
rated 4.98 (index 0, Maya) is selected. -/
theorem C6_highestRated_choice_witness :
    HighestRatedDispatch.chooseDriver (main.drivers ℝ) (main.rider1 ℝ) = some 0 ∧
    ∃ d, (main.drivers ℝ)[0]? = some d ∧ d ∈ main.drivers ℝ ∧ d.available_ = true ∧
      (∀ e ∈ main.drivers ℝ, e.available_ = true → e.rating_ ≤ d.rating_) ∧
      (∀ (k : Nat) (e : Driver ℝ), (main.drivers ℝ)[k]? = some e → e.available_ = true →
        e.rating_ = d.rating_ → 0 ≤ k) :=
  ⟨main.highestRated_choice (main.rider1 ℝ),
    (C6_highestRated_choice (main.drivers ℝ) (main.rider1 ℝ)).1 0
      (main.highestRated_choice (main.rider1 ℝ))⟩

/-- C8: on a pool that is empty or whose drivers are all unavailable, both
dispatch strategies return absence, and so does `requestTrip` under either of
them, whatever the pricing slot and the id counter. -/
theorem C8_no_available_driver_absent (sqrt : K → K) (to_string : K → String)
    (drivers : List (Driver K)) (rider : Rider K)
    (h : drivers = [] ∨ ∀ d ∈ drivers, d.available_ = false) :
    HighestRatedDispatch.chooseDriver drivers rider = none ∧
    NearestDriverDispatch.chooseDriver sqrt drivers rider = none ∧
    ∀ (pricingStrategy : Option (PricingStrategy K)) (dispatch : DispatchStrategy)
      (nextTripId : Int),
      (RideService.requestTrip sqrt to_string
        { drivers_ := drivers, pricingStrategy_ := pricingStrategy,
          dispatchStrategy_ := some dispatch, nextTripId_ := nextTripId } rider).1 = none := by
  have hall : ∀ (k : Nat) (e : Driver K), drivers[k]? = some e → e.available_ = false := by
    intro k e hk
    rcases h with h | h
    · subst h
      simp at hk
    · exact h e (List.getElem?_mem hk)
  have hhr : HighestRatedDispatch.chooseDriver drivers rider = none := by
    rw [HighestRatedDispatch.hr_chooseDriver_eq_none_iff]
    intro k e hk heav
    rw [hall k e hk] at heav
    exact absurd heav (by simp)
  have hnd : NearestDriverDispatch.chooseDriver sqrt drivers rider = none :=
    (NearestDriverDispatch.nd_chooseDriver_eq_none_iff sqrt drivers rider).mpr hall
  refine ⟨hhr, hnd, ?_⟩
  intro pricingStrategy dispatch nextTripId
  rw [RideService.requestTrip_none]
  refine Or.inr (Or.inr ⟨dispatch, rfl, ?_⟩)
  cases dispatch with
  | highestRated => exact hhr
  | nearestDriver => exact hnd

/-- Witness for C8: a pool whose only driver is unavailable. -/
theorem C8_no_available_driver_absent_witness :
    ((sample.busy ℝ) = [] ∨
      ∀ d ∈ (sample.busy ℝ), d.available_ = false) ∧
    HighestRatedDispatch.chooseDriver
      (sample.busy ℝ) (main.rider1 ℝ) = none ∧
    NearestDriverDispatch.chooseDriver Real.sqrt
      (sample.busy ℝ) (main.rider1 ℝ) = none :=
  ⟨Or.inr (fun d hd => by rw [List.mem_singleton.mp hd]),
    (C8_no_available_driver_absent Real.sqrt (fun _ => "") _ (main.rider1 ℝ)
      (Or.inr (fun d hd => by rw [List.mem_singleton.mp hd]))).1,
    (C8_no_available_driver_absent Real.sqrt (fun _ => "") _ (main.rider1 ℝ)
      (Or.inr (fun d hd => by rw [List.mem_singleton.mp hd]))).2.1⟩

/-! ## Pricing strategies -/

/-- The Standard fare as a closed formula. -/
theorem StandardPricing.standard_fare_eq (distanceKm minutes : K) :
    StandardPricing.calculateFare distanceKm minutes =
      2.50 + 1.25 * distanceKm + 0.35 * minutes := by
  unfold StandardPricing.calculateFare
  ring

/-- The Eco fare is the larger of the minimum fare and nine tenths of the
Standard fare. -/
theorem EcoPricing.eco_fare_eq (distanceKm minutes : K) :
    EcoPricing.calculateFare distanceKm minutes =
      max 5.00 (0.90 * StandardPricing.calculateFare distanceKm minutes) := by
  unfold EcoPricing.calculateFare
  have h : StandardPricing.calculateFare distanceKm minutes * ((1.0 : K) - 0.10) =
      0.90 * StandardPricing.calculateFare distanceKm minutes := by
    norm_num
    ring
  simp only [h]

/-- C9 fails as stated: at distance 0 and 3 minutes (both non-negative) the
Standard fare is 3.55 and the Eco fare is the 5.00 minimum, which is larger. -/
theorem C9_eco_le_standard_counterexample :
    (0 : ℝ) ≤ 0 ∧ (0 : ℝ) ≤ 3 ∧
    ¬ (EcoPricing.calculateFare (0 : ℝ) 3 ≤ StandardPricing.calculateFare (0 : ℝ) 3) := by
  refine ⟨le_refl _, by norm_num, ?_⟩
  rw [EcoPricing.eco_fare_eq, StandardPricing.standard_fare_eq]
  norm_num

/-- C9, amended: for non-negative distance and minutes, the Eco fare is at
most the Standard fare exactly when the Standard fare is at least the 5.00
minimum fare. -/
theorem C9_eco_le_standard_iff (distanceKm minutes : K) (hd : 0 ≤ distanceKm)
    (hm : 0 ≤ minutes) :
    EcoPricing.calculateFare distanceKm minutes ≤
        StandardPricing.calculateFare distanceKm minutes ↔
      5.00 ≤ StandardPricing.calculateFare distanceKm minutes := by
  have hpos : 0 ≤ StandardPricing.calculateFare distanceKm minutes := by
    rw [StandardPricing.standard_fare_eq]
    have h1 : (0 : K) ≤ 1.25 * distanceKm := mul_nonneg (by norm_num) hd
    have h2 : (0 : K) ≤ 0.35 * minutes := mul_nonneg (by norm_num) hm
    have h3 : (0 : K) ≤ 2.50 := by norm_num
    linarith
  have h9 : 0.90 * StandardPricing.calculateFare distanceKm minutes ≤
      StandardPricing.calculateFare distanceKm minutes := by
    have : (0.90 : K) * StandardPricing.calculateFare distanceKm minutes ≤
        1 * StandardPricing.calculateFare distanceKm minutes :=
      mul_le_mul_of_nonneg_right (by norm_num) hpos
    simpa using this
  rw [EcoPricing.eco_fare_eq]
  constructor
  · intro h
    exact le_trans (le_max_left _ _) h
  · intro h
    exact max_le h h9

/-- Witness for the amended C9 at distance 4 and 3 minutes. -/
theorem C9_eco_le_standard_iff_witness :
    (0 : ℝ) ≤ 4 ∧ (0 : ℝ) ≤ 3 ∧
    (EcoPricing.calculateFare (4 : ℝ) 3 ≤ StandardPricing.calculateFare (4 : ℝ) 3 ↔
      5.00 ≤ StandardPricing.calculateFare (4 : ℝ) 3) :=
  ⟨by norm_num, by norm_num, C9_eco_le_standard_iff (4 : ℝ) 3 (by norm_num) (by norm_num)⟩

/-- C10: the Eco fare equals `max(5.00, 0.90 * Standard fare)` for every
distance and minutes, and is therefore at least 5.00. -/
theorem C10_eco_fare_formula_and_floor (distanceKm minutes : K) :
    EcoPricing.calculateFare distanceKm minutes =
      max 5.00 (0.90 * StandardPricing.calculateFare distanceKm minutes) ∧
    5.00 ≤ EcoPricing.calculateFare distanceKm minutes := by
  refine ⟨EcoPricing.eco_fare_eq distanceKm minutes, ?_⟩
  rw [EcoPricing.eco_fare_eq]
  exact le_max_left _ _

/-- C11: for every multiplier, zero and negative ones included, the Surge fare
equals the multiplier times the Standard fare for the same inputs, also
through the virtual call. -/
theorem C11_surge_fare_eq_multiplier_times_standard (m distanceKm minutes : K) :
    SurgePricing.calculateFare m distanceKm minutes =
      m * StandardPricing.calculateFare distanceKm minutes ∧
    (PricingStrategy.surge m).calculateFare distanceKm minutes =
      m * (PricingStrategy.standard : PricingStrategy K).calculateFare distanceKm minutes := by
  refine ⟨?_, ?_⟩
  · unfold SurgePricing.calculateFare
    exact mul_comm _ _
  · simp only [PricingStrategy.calculateFare, SurgePricing.calculateFare]
    exact mul_comm _ _

/-- C12: the Standard fare is `2.50 + 1.25*d + 0.35*t`, and it is
non-decreasing in distance and duration jointly. -/
theorem C12_standard_fare_formula_monotone (d1 d2 t1 t2 : K) :
    StandardPricing.calculateFare d1 t1 = 2.50 + 1.25 * d1 + 0.35 * t1 ∧
    (d1 ≤ d2 → t1 ≤ t2 →
      StandardPricing.calculateFare d1 t1 ≤ StandardPricing.calculateFare d2 t2) := by
  refine ⟨StandardPricing.standard_fare_eq d1 t1, ?_⟩
  intro hd ht
  rw [StandardPricing.standard_fare_eq, StandardPricing.standard_fare_eq]
  have h1 : (1.25 : K) * d1 ≤ 1.25 * d2 := mul_le_mul_of_nonneg_left hd (by norm_num)
  have h2 : (0.35 : K) * t1 ≤ 0.35 * t2 := mul_le_mul_of_nonneg_left ht (by norm_num)
  linarith

/-- Witness for C12: from 5 km and 7.5 minutes to 6 km and 9 minutes. -/
theorem C12_standard_fare_formula_monotone_witness :
    (5 : ℝ) ≤ 6 ∧ (7.5 : ℝ) ≤ 9 ∧
    StandardPricing.calculateFare (5 : ℝ) 7.5 ≤ StandardPricing.calculateFare (6 : ℝ) 9 :=
  ⟨by norm_num, by norm_num,
    (C12_standard_fare_formula_monotone (5 : ℝ) 6 7.5 9).2 (by norm_num) (by norm_num)⟩

/-- C13: over the reals the Euclidean `distanceTo` is symmetric and the
distance of a location to itself is 0. -/
theorem C13_distanceTo_symmetric_and_zero (a b : Location ℝ) :
    a.distanceTo Real.sqrt b = b.distanceTo Real.sqrt a ∧ a.distanceTo Real.sqrt a = 0 := by
  refine ⟨?_, ?_⟩
  · have h : (a.x - b.x) * (a.x - b.x) + (a.y - b.y) * (a.y - b.y) =
        (b.x - a.x) * (b.x - a.x) + (b.y - a.y) * (b.y - a.y) := by ring
    simp only [Location.distanceTo, h]
  · simp [Location.distanceTo]

/-! ## Duration estimate -/

/-- The duration estimate as a closed formula. -/
theorem RideService.estimate_eq (distanceKm : K) :
    RideService.estimateDurationMinutes distanceKm =
      if distanceKm ≤ 0.01 then 3 else (distanceKm / 40.0) * 60.0 := by
  unfold RideService.estimateDurationMinutes
  by_cases h : distanceKm ≤ 0.01
  · simp only [h, if_true]
    norm_num
  · simp only [h, if_false]

/-- The trip of a successful `requestTrip` carries the pickup-to-dropoff
distance and its estimated duration, whatever the strategies. -/
theorem RideService.requestTrip_distance_duration (sqrt : K → K) (to_string : K → String)
    (s : RideService K) (rider : Rider K) (t : Trip K) (s1 : RideService K)
    (h : RideService.requestTrip sqrt to_string s rider = (some t, s1)) :
    t.distanceKm = rider.pickup_.distanceTo sqrt rider.dropoff_ ∧
    t.durationMinutes =
      RideService.estimateDurationMinutes (rider.pickup_.distanceTo sqrt rider.dropoff_) ∧
    ∃ pricing, s.pricingStrategy_ = some pricing ∧
      t.fare = pricing.calculateFare (rider.pickup_.distanceTo sqrt rider.dropoff_)
        (RideService.estimateDurationMinutes (rider.pickup_.distanceTo sqrt rider.dropoff_)) := by
  rcases RideService.requestTrip_cases sqrt to_string s rider with
    ⟨hnone, _⟩ | ⟨pricing, dispatch, chosen, hp, hd, hc⟩
  · rw [hnone] at h
    exact absurd (congrArg Prod.fst h) (by simp)
  · rw [RideService.requestTrip_some sqrt to_string s rider pricing dispatch chosen hp hd hc] at h
    have ht := Option.some.inj (congrArg Prod.fst h)
    simp only at ht
    subst ht
    exact ⟨rfl, rfl, pricing, hp, rfl⟩

/-- C14: the estimated duration is 3 minutes for distances up to 0.01 and
`(d / 40.0) * 60.0` above; a trip for a rider whose pickup equals the dropoff
has distance 0 and duration exactly 3. -/
theorem C14_duration_formula_and_clamp (d : ℝ) :
    RideService.estimateDurationMinutes d =
      (if d ≤ 0.01 then 3 else (d / 40.0) * 60.0) ∧
    ∀ (to_string : ℝ → String) (s : RideService ℝ) (rider : Rider ℝ) (t : Trip ℝ)
      (s1 : RideService ℝ), rider.pickup_ = rider.dropoff_ →
      RideService.requestTrip Real.sqrt to_string s rider = (some t, s1) →
      t.distanceKm = 0 ∧ t.durationMinutes = 3 := by
  refine ⟨RideService.estimate_eq d, ?_⟩
  intro to_string s rider t s1 heq h
  obtain ⟨hdist, hdur, _⟩ :=
    RideService.requestTrip_distance_duration Real.sqrt to_string s rider t s1 h
  have h0 : rider.pickup_.distanceTo Real.sqrt rider.dropoff_ = 0 := by
    rw [heq]
    simp [Location.distanceTo]
  rw [h0] at hdist hdur
  refine ⟨hdist, ?_⟩
  rw [hdur, RideService.estimate_eq]
  norm_num

/-- Witness for C14: the stationary rider on the sample service with Standard
pricing and highest-rated dispatch. -/
theorem C14_duration_formula_and_clamp_witness :
    (sample.stationary ℝ).pickup_ = (sample.stationary ℝ).dropoff_ ∧
    ∃ t s1,
      RideService.requestTrip Real.sqrt (fun _ => "")
        (main.service ℝ (some PricingStrategy.standard) (some DispatchStrategy.highestRated))
        (sample.stationary ℝ) = (some t, s1) ∧
      t.distanceKm = 0 ∧ t.durationMinutes = 3 :=
  ⟨rfl, _, _,
    RideService.requestTrip_some Real.sqrt (fun _ => "")
      (main.service ℝ (some PricingStrategy.standard) (some DispatchStrategy.highestRated))
      (sample.stationary ℝ) PricingStrategy.standard DispatchStrategy.highestRated 0 rfl rfl
      (main.highestRated_choice (sample.stationary ℝ)),
    (C14_duration_formula_and_clamp 0).2 (fun _ => "")
      (main.service ℝ (some PricingStrategy.standard) (some DispatchStrategy.highestRated))
      (sample.stationary ℝ) _ _ rfl
      (RideService.requestTrip_some Real.sqrt (fun _ => "")
        (main.service ℝ (some PricingStrategy.standard) (some DispatchStrategy.highestRated))
        (sample.stationary ℝ) PricingStrategy.standard DispatchStrategy.highestRated 0 rfl rfl
        (main.highestRated_choice (sample.stationary ℝ)))⟩

/-- The first rider of `main` travels 5 km. -/
theorem main.rider1_distance :
    (main.rider1 ℝ).pickup_.distanceTo Real.sqrt (main.rider1 ℝ).dropoff_ = 5 := by
  have h : ((0.0 : ℝ) - 4.0) * (0.0 - 4.0) + (0.0 - 3.0) * (0.0 - 3.0) = 5 * 5 := by norm_num
  simp only [Location.distanceTo, main.rider1, h]
  exact Real.sqrt_mul_self (by norm_num)

/-- C15: on a fresh service with Standard pricing and nearest-driver dispatch,
after adding Maya, Leo and Amina in that order, `requestTrip` for the rider
from (0,0) to (4,3) returns trip 1 with driver Maya, distance 5.0, duration
7.5 and fare 11.375. -/
theorem C15_end_to_end_scenario (to_string : ℝ → String) :
    ∃ t s1,
      RideService.requestTrip Real.sqrt to_string
        (main.service ℝ (some PricingStrategy.standard) (some DispatchStrategy.nearestDriver))
        (main.rider1 ℝ) = (some t, s1) ∧
      t.id = 1 ∧
      (∃ d, (main.service ℝ (some PricingStrategy.standard)
          (some DispatchStrategy.nearestDriver)).drivers_[t.driver]? = some d ∧
        d.id_ = 1 ∧ d.name_ = "Maya") ∧
      t.distanceKm = 5.0 ∧ t.durationMinutes = 7.5 ∧ t.fare = 11.375 := by
  refine ⟨_, _,
    RideService.requestTrip_some Real.sqrt to_string
      (main.service ℝ (some PricingStrategy.standard) (some DispatchStrategy.nearestDriver))
      (main.rider1 ℝ) PricingStrategy.standard DispatchStrategy.nearestDriver 0 rfl rfl
      main.nearestDriver_choice, rfl, ⟨_, rfl, rfl, rfl⟩, ?_, ?_, ?_⟩
  · simp only [main.rider1_distance]
    norm_num
  · simp only [main.rider1_distance, RideService.estimate_eq]
    norm_num
  · simp only [main.rider1_distance, RideService.estimate_eq, PricingStrategy.calculateFare,
      StandardPricing.standard_fare_eq]
    norm_num

/-! ## Frame of the trip transaction -/

/-- A driver returned by either dispatch strategy is an available driver of
the pool. -/
theorem DispatchStrategy.chooseDriver_available (sqrt : K → K) (dispatch : DispatchStrategy)
    (drivers : List (Driver K)) (rider : Rider K) (i : Nat)
    (h : dispatch.chooseDriver sqrt drivers rider = some i) :
    ∃ d, drivers[i]? = some d ∧ d.available_ = true := by
  cases dispatch with
  | highestRated =>
    obtain ⟨d, hd, hav, _⟩ := HighestRatedDispatch.hr_chooseDriver_some drivers rider i h
    exact ⟨d, hd, hav⟩
  | nearestDriver =>
    obtain ⟨d, hd, hav, _⟩ := NearestDriverDispatch.nd_chooseDriver_some sqrt drivers rider i h
    exact ⟨d, hd, hav⟩

/-- The pool after the three updates of the success path, entry by entry: the
chosen entry is the old one made unavailable, moved and made available again;
every other entry is untouched. -/
theorem RideService.getElem?_updated_pool (drivers : List (Driver K)) (chosen : Nat)
    (dropoff : Location K) (k : Nat) :
    (List.modify (Driver.setAvailable true) chosen
      (List.modify (Driver.moveTo dropoff) chosen
        (List.modify (Driver.setAvailable false) chosen drivers)))[k]? =
      if chosen = k then
        (drivers[k]?).map (fun d =>
          Driver.setAvailable true (Driver.moveTo dropoff (Driver.setAvailable false d)))
      else drivers[k]? := by
  by_cases hk : chosen = k
  · subst hk
    simp only [List.getElem?_modify_eq, if_true]
    cases drivers[chosen]? <;> rfl
  · simp only [List.getElem?_modify_ne _ _ hk, if_neg hk]

/-- Every return path of `requestTrip` leaves the availability flags of the
pool, in pool order, as they were. -/
theorem RideService.requestTrip_availability (sqrt : K → K) (to_string : K → String)
    (s : RideService K) (rider : Rider K) :
    (RideService.requestTrip sqrt to_string s rider).2.drivers_.map (fun d => d.available_) =
      s.drivers_.map (fun d => d.available_) := by
  rcases RideService.requestTrip_cases sqrt to_string s rider with
    ⟨hnone, _⟩ | ⟨pricing, dispatch, chosen, hp, hd, hc⟩
  · rw [hnone]
  · rw [RideService.requestTrip_some sqrt to_string s rider pricing dispatch chosen hp hd hc]
    obtain ⟨d0, hd0, hav0⟩ :=
      DispatchStrategy.chooseDriver_available sqrt dispatch s.drivers_ rider chosen hc
    apply List.ext_getElem?
    intro k
    simp only [List.getElem?_map, RideService.getElem?_updated_pool]
    by_cases hk : chosen = k
    · subst hk
      simp only [if_true, hd0, Option.map_some', Driver.setAvailable, hav0]
    · simp only [if_neg hk]

/-- Along a run from a state whose drivers are all available, in which only
available drivers are added, every driver of the final pool is available. -/
theorem RideService.run_all_available (sqrt : K → K) (to_string : K → String)
    (calls : List (Call K))
    (hadd : ∀ driver, Call.addDriver driver ∈ calls → driver.available_ = true) :
    ∀ s : RideService K, (∀ d ∈ s.drivers_, d.available_ = true) →
      ∀ d ∈ (RideService.run sqrt to_string s calls).2.drivers_, d.available_ = true := by
  induction calls with
  | nil =>
    intro s hs
    simpa [RideService.run] using hs
  | cons c rest ih =>
    have hrest : ∀ driver, Call.addDriver driver ∈ rest → driver.available_ = true :=
      fun driver hmem => hadd driver (List.mem_cons_of_mem _ hmem)
    intro s hs
    cases c with
    | addDriver driver =>
      simp only [RideService.run]
      apply ih hrest
      intro d hd
      simp only [RideService.addDriver, List.mem_append, List.mem_singleton] at hd
      rcases hd with hd | hd
      · exact hs d hd
      · rw [hd]
        exact hadd driver (List.mem_cons_self _ _)
    | setPricingStrategy strategy =>
      simp only [RideService.run]
      exact ih hrest _ hs
    | setDispatchStrategy strategy =>
      simp only [RideService.run]
      exact ih hrest _ hs
    | requestTrip rider =>
      simp only [RideService.run]
      apply ih hrest
      intro d hd
      have hmap := RideService.requestTrip_availability sqrt to_string s rider
      have hmem : d.available_ ∈
          (RideService.requestTrip sqrt to_string s rider).2.drivers_.map
            (fun d => d.available_) := List.mem_map_of_mem _ hd
      rw [hmap] at hmem
      obtain ⟨e, he, hea⟩ := List.mem_map.mp hmem
      rw [← hea]
      exact hs e he

/-- C16: on every return path of `requestTrip` each driver's availability flag
after the call equals its flag before the call; hence in every state reached
from a fresh service by adding available drivers, setting strategies and
requesting trips, every driver of the pool is available. -/
theorem C16_no_driver_left_unavailable (sqrt : K → K) (to_string : K → String) :
    (∀ (s : RideService K) (rider : Rider K),
      (RideService.requestTrip sqrt to_string s rider).2.drivers_.map (fun d => d.available_) =
        s.drivers_.map (fun d => d.available_)) ∧
    (∀ (pricingStrategy : Option (PricingStrategy K))
      (dispatchStrategy : Option DispatchStrategy) (calls : List (Call K)),
      (∀ driver, Call.addDriver driver ∈ calls → driver.available_ = true) →
      ∀ d ∈ (RideService.run sqrt to_string
        (RideService.new pricingStrategy dispatchStrategy) calls).2.drivers_,
        d.available_ = true) := by
  refine ⟨RideService.requestTrip_availability sqrt to_string, ?_⟩
  intro pricingStrategy dispatchStrategy calls hadd
  apply RideService.run_all_available sqrt to_string calls hadd
  intro d hd
  simp [RideService.new] at hd

/-- Every driver that `main` adds is available. -/
theorem main.calls_add_available (driver : Driver ℝ)
    (h : Call.addDriver driver ∈ main.calls ℝ) : driver.available_ = true := by
  simp only [main.calls, main.drivers, List.map_cons, List.map_nil, List.cons_append,
    List.nil_append, List.mem_cons, Call.addDriver.injEq, List.mem_singleton, reduceCtorEq,
    or_false, List.not_mem_nil] at h
  rcases h with h | h | h <;> rw [h]

/-- Witness for C16: the call sequence of `main` over the reals. -/
theorem C16_no_driver_left_unavailable_witness :
    (∀ driver, Call.addDriver driver ∈ main.calls ℝ → driver.available_ = true) ∧
    ∀ d ∈ (RideService.run Real.sqrt (fun _ => "1.800000")
      (RideService.new (some PricingStrategy.standard) (some DispatchStrategy.nearestDriver))
      (main.calls ℝ)).2.drivers_, d.available_ = true :=
  ⟨main.calls_add_available,
    (C16_no_driver_left_unavailable Real.sqrt (fun _ => "1.800000")).2
      (some PricingStrategy.standard) (some DispatchStrategy.nearestDriver) (main.calls ℝ)
      main.calls_add_available⟩

/-! ## What is priced -/

/-- On the one-driver sample pool the nearest-driver dispatch picks that driver. -/
theorem sample.lowRated_nearest_choice (rider : Rider ℝ) :
    NearestDriverDispatch.chooseDriver Real.sqrt (sample.lowRated ℝ) rider = some 0 := by
  simp [NearestDriverDispatch.chooseDriver, NearestDriverDispatch.loop, sample.lowRated]

/-- C18: for two service states with the same active pricing strategy, whatever
their driver pools and dispatch strategies, and the same rider, trips returned
by `requestTrip` in both have equal distance, equal duration and equal fare. -/
theorem C18_priced_quantities_ignore_drivers (sqrt : K → K) (to_string : K → String)
    (s s' : RideService K) (rider : Rider K) (t t' : Trip K) (s1 s1' : RideService K)
    (hp : s.pricingStrategy_ = s'.pricingStrategy_)
    (h : RideService.requestTrip sqrt to_string s rider = (some t, s1))
    (h' : RideService.requestTrip sqrt to_string s' rider = (some t', s1')) :
    t.distanceKm = t'.distanceKm ∧ t.durationMinutes = t'.durationMinutes ∧
      t.fare = t'.fare := by
  obtain ⟨hd, hm, pricing, hpr, hf⟩ :=
    RideService.requestTrip_distance_duration sqrt to_string s rider t s1 h
  obtain ⟨hd', hm', pricing', hpr', hf'⟩ :=
    RideService.requestTrip_distance_duration sqrt to_string s' rider t' s1' h'
  have hsame : pricing = pricing' := by
    rw [hpr, hpr'] at hp
    exact Option.some.inj hp
  subst hsame
  exact ⟨hd.trans hd'.symm, hm.trans hm'.symm, hf.trans hf'.symm⟩

/-- Witness for C18: the sample service with highest-rated dispatch against a
one-driver pool with nearest-driver dispatch and another id counter, both
with Standard pricing. -/
theorem C18_priced_quantities_ignore_drivers_witness :
    ∃ t s1 t' s1',
      RideService.requestTrip Real.sqrt (fun _ => "")
        (main.service ℝ (some PricingStrategy.standard) (some DispatchStrategy.highestRated))
        (main.rider1 ℝ) = (some t, s1) ∧
      RideService.requestTrip Real.sqrt (fun _ => "")
        { drivers_ := sample.lowRated ℝ, pricingStrategy_ := some PricingStrategy.standard,
          dispatchStrategy_ := some DispatchStrategy.nearestDriver, nextTripId_ := 7 }
        (main.rider1 ℝ) = (some t', s1') ∧
      t.distanceKm = t'.distanceKm ∧ t.durationMinutes = t'.durationMinutes ∧
        t.fare = t'.fare := by
  have h := RideService.requestTrip_some Real.sqrt (fun _ => "")
    (main.service ℝ (some PricingStrategy.standard) (some DispatchStrategy.highestRated))
    (main.rider1 ℝ) PricingStrategy.standard DispatchStrategy.highestRated 0 rfl rfl
    (main.highestRated_choice (main.rider1 ℝ))
  have h' := RideService.requestTrip_some Real.sqrt (fun _ => "")
    { drivers_ := sample.lowRated ℝ, pricingStrategy_ := some PricingStrategy.standard,
      dispatchStrategy_ := some DispatchStrategy.nearestDriver, nextTripId_ := 7 }
    (main.rider1 ℝ) PricingStrategy.standard DispatchStrategy.nearestDriver 0 rfl rfl
    (sample.lowRated_nearest_choice (main.rider1 ℝ))
  exact ⟨_, _, _, _, h, h',
    C18_priced_quantities_ignore_drivers Real.sqrt (fun _ => "")
      (main.service ℝ (some PricingStrategy.standard) (some DispatchStrategy.highestRated))
      { drivers_ := sample.lowRated ℝ, pricingStrategy_ := some PricingStrategy.standard,
        dispatchStrategy_ := some DispatchStrategy.nearestDriver, nextTripId_ := 7 }
      (main.rider1 ℝ) _ _ _ _ rfl h h'⟩

/-! ## Bounds on duration and on the pricing inputs -/

/-- The estimate reaches 3 minutes exactly on distances up to 0.01 and from 2 on. -/
theorem RideService.three_le_estimate_iff (d : K) :
    3 ≤ RideService.estimateDurationMinutes d ↔ d ≤ 0.01 ∨ 2 ≤ d := by
  rw [RideService.estimate_eq]
  by_cases h : d ≤ 0.01
  · simp only [h, if_true, true_or, iff_true]
    exact le_refl _
  · simp only [h, if_false, false_or]
    constructor
    · intro h3
      have : d / 40.0 * 60.0 = d * (3 / 2) := by
        norm_num
        ring
      rw [this] at h3
      linarith
    · intro h2
      have : d / 40.0 * 60.0 = d * (3 / 2) := by
        norm_num
        ring
      rw [this]
      linarith

/-- The third rider of `main` travels the square root of 0.29 km. -/
theorem main.rider3_distance :
    (main.rider3 ℝ).pickup_.distanceTo Real.sqrt (main.rider3 ℝ).dropoff_ =
      Real.sqrt 0.29 := by
  have h : ((2.5 : ℝ) - 2.0) * (2.5 - 2.0) + (2.0 - 2.2) * (2.0 - 2.2) = 0.29 := by norm_num
  simp only [Location.distanceTo, main.rider3, h]

/-- C19 fails as stated: at the non-negative distance 0.02 the estimate is
0.03 minutes, and the trip of the third rider of `main` (a hop of about
0.54 km) has a duration below 3 minutes. -/
theorem C19_duration_at_least_three_counterexample :
    (0 : ℝ) ≤ 0.02 ∧ ¬ (3 ≤ RideService.estimateDurationMinutes (0.02 : ℝ)) ∧
    ∃ t s1,
      RideService.requestTrip Real.sqrt (fun _ => "")
        (main.service ℝ (some PricingStrategy.eco) (some DispatchStrategy.highestRated))
        (main.rider3 ℝ) = (some t, s1) ∧
      ¬ (3 ≤ t.durationMinutes) := by
  refine ⟨by norm_num, ?_, _, _,
    RideService.requestTrip_some Real.sqrt (fun _ => "")
      (main.service ℝ (some PricingStrategy.eco) (some DispatchStrategy.highestRated))
      (main.rider3 ℝ) PricingStrategy.eco DispatchStrategy.highestRated 0 rfl rfl
      (main.highestRated_choice (main.rider3 ℝ)), ?_⟩
  · rw [RideService.three_le_estimate_iff]
    norm_num
  · simp only [main.rider3_distance]
    rw [RideService.three_le_estimate_iff, not_or, not_le, not_le]
    constructor
    · exact Real.lt_sqrt_of_sq_lt (by norm_num)
    · rw [Real.sqrt_lt' (by norm_num)]
      norm_num

/-- C19, amended: the estimated duration is at least 3 minutes exactly for
distances up to 0.01 or from 2 on (in between it is `1.5 * d`, below 3); so a
trip returned by `requestTrip` has a duration of at least 3 minutes exactly
when its distance is at most 0.01 or at least 2. -/
theorem C19_duration_at_least_three_iff (sqrt : K → K) (to_string : K → String) (d : K) :
    (3 ≤ RideService.estimateDurationMinutes d ↔ d ≤ 0.01 ∨ 2 ≤ d) ∧
    ∀ (s : RideService K) (rider : Rider K) (t : Trip K) (s1 : RideService K),
      RideService.requestTrip sqrt to_string s rider = (some t, s1) →
      (3 ≤ t.durationMinutes ↔ t.distanceKm ≤ 0.01 ∨ 2 ≤ t.distanceKm) := by
  refine ⟨RideService.three_le_estimate_iff d, ?_⟩
  intro s rider t s1 h
  obtain ⟨hdist, hdur, _⟩ :=
    RideService.requestTrip_distance_duration sqrt to_string s rider t s1 h
  rw [hdur, hdist]
  exact RideService.three_le_estimate_iff _

/-- Witness for the amended C19: the first trip of `main`, 5 km long. -/
theorem C19_duration_at_least_three_iff_witness :
    ∃ t s1,
      RideService.requestTrip Real.sqrt (fun _ => "")
        (main.service ℝ (some PricingStrategy.standard) (some DispatchStrategy.nearestDriver))
        (main.rider1 ℝ) = (some t, s1) ∧
      (3 ≤ t.durationMinutes ↔ t.distanceKm ≤ 0.01 ∨ 2 ≤ t.distanceKm) := by
  have h := RideService.requestTrip_some Real.sqrt (fun _ => "")
    (main.service ℝ (some PricingStrategy.standard) (some DispatchStrategy.nearestDriver))
    (main.rider1 ℝ) PricingStrategy.standard DispatchStrategy.nearestDriver 0 rfl rfl
    main.nearestDriver_choice
  exact ⟨_, _, h,
    (C19_duration_at_least_three_iff Real.sqrt (fun _ => "") 5).2
      (main.service ℝ (some PricingStrategy.standard) (some DispatchStrategy.nearestDriver))
      (main.rider1 ℝ) _ _ h⟩

/-- The estimate is positive for every distance. -/
theorem RideService.estimate_pos (d : K) : 0 < RideService.estimateDurationMinutes d := by
  rw [RideService.estimate_eq]
  by_cases h : d ≤ 0.01
  · simp only [h, if_true]
    norm_num
  · simp only [h, if_false]
    have hd : (0 : K) < d := lt_trans (by norm_num) (not_le.mp h)
    exact mul_pos (div_pos hd (by norm_num)) (by norm_num)

/-- C20: over the reals, the distance and duration that `requestTrip` computes
for a rider are non-negative and positive respectively, and these are the
arguments on which the active pricing strategy computes the fare of a
returned trip. -/
theorem C20_pricing_inputs_nonnegative (to_string : ℝ → String) (s : RideService ℝ)
    (rider : Rider ℝ) :
    0 ≤ rider.pickup_.distanceTo Real.sqrt rider.dropoff_ ∧
    0 < RideService.estimateDurationMinutes (rider.pickup_.distanceTo Real.sqrt rider.dropoff_) ∧
    ∀ (t : Trip ℝ) (s1 : RideService ℝ),
      RideService.requestTrip Real.sqrt to_string s rider = (some t, s1) →
      ∃ pricing, s.pricingStrategy_ = some pricing ∧
        t.fare = pricing.calculateFare t.distanceKm t.durationMinutes ∧
        0 ≤ t.distanceKm ∧ 0 < t.durationMinutes := by
  have h0 : 0 ≤ rider.pickup_.distanceTo Real.sqrt rider.dropoff_ := by
    unfold Location.distanceTo
    exact Real.sqrt_nonneg _
  refine ⟨h0, RideService.estimate_pos _, ?_⟩
  intro t s1 h
  obtain ⟨hdist, hdur, pricing, hp, hf⟩ :=
    RideService.requestTrip_distance_duration Real.sqrt to_string s rider t s1 h
  refine ⟨pricing, hp, ?_, ?_, ?_⟩
  · rw [hf, hdur, hdist]
  · rw [hdist]
    exact h0
  · rw [hdur]
    exact RideService.estimate_pos _

/-- Witness for C20: the third rider of `main` under Eco pricing. -/
theorem C20_pricing_inputs_nonnegative_witness :
    ∃ t s1,
      RideService.requestTrip Real.sqrt (fun _ => "")
        (main.service ℝ (some PricingStrategy.eco) (some DispatchStrategy.highestRated))
        (main.rider3 ℝ) = (some t, s1) ∧
      ∃ pricing,
        (main.service ℝ (some PricingStrategy.eco)
          (some DispatchStrategy.highestRated)).pricingStrategy_ = some pricing ∧
        t.fare = pricing.calculateFare t.distanceKm t.durationMinutes ∧
        0 ≤ t.distanceKm ∧ 0 < t.durationMinutes := by
  have h := RideService.requestTrip_some Real.sqrt (fun _ => "")
    (main.service ℝ (some PricingStrategy.eco) (some DispatchStrategy.highestRated))
    (main.rider3 ℝ) PricingStrategy.eco DispatchStrategy.highestRated 0 rfl rfl
    (main.highestRated_choice (main.rider3 ℝ))
  exact ⟨_, _, h,
    (C20_pricing_inputs_nonnegative (fun _ => "")
      (main.service ℝ (some PricingStrategy.eco) (some DispatchStrategy.highestRated))
      (main.rider3 ℝ)).2.2 _ _ h⟩

/-! ## The 32-bit trip id counter -/

/-- A value in the range of `int` is its own 32-bit representative. -/
theorem wrapInt32_of_range (n : Int) (hlo : -2147483648 ≤ n) (hhi : n ≤ 2147483647) :
    wrapInt32 n = n := by
  unfold wrapInt32
  omega

/-- Wrapping is idempotent. -/
theorem wrapInt32_idem (n : Int) : wrapInt32 (wrapInt32 n) = wrapInt32 n := by
  unfold wrapInt32
  omega

/-- Wrapping an intermediate sum changes nothing after a final wrap. -/
theorem wrapInt32_add_left (a b : Int) : wrapInt32 (wrapInt32 a + b) = wrapInt32 (a + b) := by
  unfold wrapInt32
  omega

/-- The outcome of one `requestTrip` call on the id counter: a returned trip
carries the current counter and stores the wrapped increment; absence leaves
the counter. -/
theorem RideService.requestTrip_id (sqrt : K → K) (to_string : K → String)
    (s : RideService K) (rider : Rider K) :
    ((RideService.requestTrip sqrt to_string s rider).1 = none ∧
      (RideService.requestTrip sqrt to_string s rider).2.nextTripId_ = s.nextTripId_) ∨
    (∃ t, (RideService.requestTrip sqrt to_string s rider).1 = some t ∧
      t.id = s.nextTripId_ ∧
      (RideService.requestTrip sqrt to_string s rider).2.nextTripId_ =
        wrapInt32 (s.nextTripId_ + 1)) := by
  rcases RideService.requestTrip_cases sqrt to_string s rider with
    ⟨hnone, _⟩ | ⟨pricing, dispatch, chosen, hp, hd, hc⟩
  · left
    rw [hnone]
    exact ⟨rfl, rfl⟩
  · right
    rw [RideService.requestTrip_some sqrt to_string s rider pricing dispatch chosen hp hd hc]
    exact ⟨_, rfl, rfl, rfl⟩

/-- Ids along a run from a state whose counter is in the range of `int`: the
returned trips carry the counter plus 0, 1, 2, ..., each as a 32-bit value,
and the counter ends advanced by their number, as a 32-bit value. -/
theorem RideService.run_ids (sqrt : K → K) (to_string : K → String) (calls : List (Call K)) :
    ∀ s : RideService K, wrapInt32 s.nextTripId_ = s.nextTripId_ →
      (RideService.run sqrt to_string s calls).1.reduceOption.map Trip.id =
        (List.range (RideService.run sqrt to_string s calls).1.reduceOption.length).map
          (fun (k : Nat) => wrapInt32 (s.nextTripId_ + (k : Int))) ∧
      (RideService.run sqrt to_string s calls).2.nextTripId_ =
        wrapInt32 (s.nextTripId_ +
          ((RideService.run sqrt to_string s calls).1.reduceOption.length : Int)) := by
  induction calls with
  | nil =>
    intro s hs
    simp [RideService.run, hs]
  | cons c rest ih =>
    intro s hs
    cases c with
    | addDriver driver =>
      simpa [RideService.run, RideService.addDriver] using ih (s.addDriver driver) hs
    | setPricingStrategy strategy =>
      simpa [RideService.run, RideService.setPricingStrategy] using
        ih (s.setPricingStrategy strategy) hs
    | setDispatchStrategy strategy =>
      simpa [RideService.run, RideService.setDispatchStrategy] using
        ih (s.setDispatchStrategy strategy) hs
    | requestTrip rider =>
      rcases RideService.requestTrip_id sqrt to_string s rider with
        ⟨h1, h2⟩ | ⟨t, h1, hid, h2⟩
      · have hih := ih (RideService.requestTrip sqrt to_string s rider).2 (by rw [h2]; exact hs)
        simp only [RideService.run, h1, List.reduceOption_cons_of_none]
        rw [h2] at hih
        exact hih
      · have hih := ih (RideService.requestTrip sqrt to_string s rider).2
          (by rw [h2]; exact wrapInt32_idem _)
        simp only [RideService.run, h1, List.reduceOption_cons_of_some, List.map_cons,
          List.length_cons]
        rw [h2] at hih
        obtain ⟨hih1, hih2⟩ := hih
        refine ⟨?_, ?_⟩
        · rw [List.range_succ_eq_map, List.map_cons, List.map_map, hih1, hid]
          simp only [Nat.cast_zero, add_zero, hs, List.cons.injEq, true_and]
          apply List.map_congr_left
          intro k _
          simp only [Function.comp, Nat.succ_eq_add_one, Nat.cast_add, Nat.cast_one]
          rw [wrapInt32_add_left]
          congr 1
          ring
        · rw [hih2, wrapInt32_add_left]
          congr 1
          push_cast
          ring

/-- With both strategies set, nearest-driver dispatch and an available driver
in the pool, `requestTrip` returns a trip and keeps these three facts. -/
theorem RideService.requestTrip_nearest_succeeds (sqrt : K → K) (to_string : K → String)
    (s : RideService K) (rider : Rider K) (pricing : PricingStrategy K)
    (hp : s.pricingStrategy_ = some pricing)
    (hd : s.dispatchStrategy_ = some DispatchStrategy.nearestDriver)
    (hav : ∃ a ∈ s.drivers_, a.available_ = true) :
    (∃ t, (RideService.requestTrip sqrt to_string s rider).1 = some t) ∧
    (RideService.requestTrip sqrt to_string s rider).2.pricingStrategy_ = some pricing ∧
    (RideService.requestTrip sqrt to_string s rider).2.dispatchStrategy_ =
      some DispatchStrategy.nearestDriver ∧
    ∃ a ∈ (RideService.requestTrip sqrt to_string s rider).2.drivers_, a.available_ = true := by
  have hav1 : ∃ a ∈ (RideService.requestTrip sqrt to_string s rider).2.drivers_,
      a.available_ = true := by
    obtain ⟨a, ha, haav⟩ := hav
    have hmem : a.available_ ∈ s.drivers_.map (fun d => d.available_) :=
      List.mem_map_of_mem _ ha
    rw [← RideService.requestTrip_availability sqrt to_string s rider] at hmem
    obtain ⟨b, hb, hba⟩ := List.mem_map.mp hmem
    exact ⟨b, hb, by rw [hba, haav]⟩
  cases hc : DispatchStrategy.nearestDriver.chooseDriver sqrt s.drivers_ rider with
  | none =>
    exfalso
    obtain ⟨a, ha, haav⟩ := hav
    obtain ⟨k, hk⟩ := List.getElem?_of_mem ha
    have := (NearestDriverDispatch.nd_chooseDriver_eq_none_iff sqrt s.drivers_ rider).mp hc k a hk
    rw [haav] at this
    exact absurd this (by simp)
  | some chosen =>
    have hsome := RideService.requestTrip_some sqrt to_string s rider pricing
      DispatchStrategy.nearestDriver chosen hp hd hc
    refine ⟨⟨_, by rw [hsome]⟩, by rw [hsome]; exact hp, by rw [hsome]; exact hd, hav1⟩

/-- A row of `n` requests on such a service returns `n` trips and ends in
such a service. -/
theorem RideService.run_replicate_requestTrip (sqrt : K → K) (to_string : K → String)
    (rider : Rider K) (pricing : PricingStrategy K) (n : Nat) :
    ∀ s : RideService K, s.pricingStrategy_ = some pricing →
      s.dispatchStrategy_ = some DispatchStrategy.nearestDriver →
      (∃ a ∈ s.drivers_, a.available_ = true) →
      (RideService.run sqrt to_string s
        (List.replicate n (Call.requestTrip rider))).1.reduceOption.length = n ∧
      (RideService.run sqrt to_string s
        (List.replicate n (Call.requestTrip rider))).2.pricingStrategy_ = some pricing ∧
      (RideService.run sqrt to_string s
        (List.replicate n (Call.requestTrip rider))).2.dispatchStrategy_ =
          some DispatchStrategy.nearestDriver ∧
      ∃ a ∈ (RideService.run sqrt to_string s
        (List.replicate n (Call.requestTrip rider))).2.drivers_, a.available_ = true := by
  induction n with
  | zero =>
    intro s hp hd hav
    exact ⟨rfl, hp, hd, hav⟩
  | succ n ih =>
    intro s hp hd hav
    obtain ⟨⟨t, ht⟩, hp1, hd1, hav1⟩ :=
      RideService.requestTrip_nearest_succeeds sqrt to_string s rider pricing hp hd hav
    obtain ⟨hlen, hp2, hd2, hav2⟩ :=
      ih (RideService.requestTrip sqrt to_string s rider).2 hp1 hd1 hav1
    simp only [List.replicate_succ, RideService.run, ht, List.reduceOption_cons_of_some,
      List.length_cons]
    exact ⟨by rw [hlen], hp2, hd2, hav2⟩

/-- The long session starts, after its three `addDriver` calls, from the
sample service. -/
theorem sample.run_manyTrips (sqrt : K → K) (to_string : K → String)
    (pricing : PricingStrategy K) (n : Nat) :
    RideService.run sqrt to_string
        (RideService.new (some pricing) (some DispatchStrategy.nearestDriver))
        (sample.manyTrips K n) =
      RideService.run sqrt to_string
        (main.service K (some pricing) (some DispatchStrategy.nearestDriver))
        (List.replicate n (Call.requestTrip (main.rider1 K))) := by
  rfl

/-- In the long session every request returns a trip: there are `n` trips, the
trip at position `k` (counted from 0) carries the 32-bit value of `1 + k`, and
the session ends with both strategies set, an available driver and the counter
at the 32-bit value of `1 + n`. -/
theorem sample.manyTrips_ids (sqrt : K → K) (to_string : K → String)
    (pricing : PricingStrategy K) (n : Nat) :
    (∀ k, k < n → ∃ t,
      (RideService.run sqrt to_string
        (RideService.new (some pricing) (some DispatchStrategy.nearestDriver))
        (sample.manyTrips K n)).1.reduceOption[k]? = some t ∧
      t.id = wrapInt32 (1 + (k : Int))) ∧
    (RideService.run sqrt to_string
      (RideService.new (some pricing) (some DispatchStrategy.nearestDriver))
      (sample.manyTrips K n)).2.nextTripId_ = wrapInt32 (1 + (n : Int)) ∧
    (RideService.run sqrt to_string
      (RideService.new (some pricing) (some DispatchStrategy.nearestDriver))
      (sample.manyTrips K n)).2.pricingStrategy_ = some pricing ∧
    (RideService.run sqrt to_string
      (RideService.new (some pricing) (some DispatchStrategy.nearestDriver))
      (sample.manyTrips K n)).2.dispatchStrategy_ = some DispatchStrategy.nearestDriver ∧
    ∃ a ∈ (RideService.run sqrt to_string
      (RideService.new (some pricing) (some DispatchStrategy.nearestDriver))
      (sample.manyTrips K n)).2.drivers_, a.available_ = true := by
  rw [sample.run_manyTrips]
  have hav : ∃ a ∈ (main.service K (some pricing)
      (some DispatchStrategy.nearestDriver)).drivers_, a.available_ = true :=
    ⟨_, List.mem_cons_self _ _, rfl⟩
  obtain ⟨hlen, hp, hd, hav1⟩ :=
    RideService.run_replicate_requestTrip sqrt to_string (main.rider1 K) pricing n
      (main.service K (some pricing) (some DispatchStrategy.nearestDriver)) rfl rfl hav
  obtain ⟨hids, hnext⟩ :=
    RideService.run_ids sqrt to_string (List.replicate n (Call.requestTrip (main.rider1 K)))
      (main.service K (some pricing) (some DispatchStrategy.nearestDriver))
      (wrapInt32_of_range 1 (by decide) (by decide))
  rw [hlen] at hids hnext
  refine ⟨?_, hnext, hp, hd, hav1⟩
  intro k hk
  have hk1 : k < (RideService.run sqrt to_string
      (main.service K (some pricing) (some DispatchStrategy.nearestDriver))
      (List.replicate n (Call.requestTrip (main.rider1 K)))).1.reduceOption.length := by
    rw [hlen]
    exact hk
  refine ⟨_, List.getElem?_eq_getElem hk1, ?_⟩
  have h1 := congrArg (fun l => l[k]?) hids
  simp only [List.getElem?_map, List.getElem?_eq_getElem hk1, Option.map_some',
    List.getElem?_range hk] at h1
  exact Option.some.inj h1

/-- C2, amended: from a freshly constructed service and any sequence of calls,
the k-th `requestTrip` call that returns a trip returns it with id exactly k,
for every k up to 2147483647 (`INT_MAX`); absent results and strategy swaps
consume no id, so with n trips returned and n + 1 within `INT_MAX` the counter
ends at n + 1.  Positions are counted from 0 here: position `k` is the
`k + 1`-th returned trip. -/
theorem C2_trip_ids_consecutive_below_overflow (sqrt : K → K) (to_string : K → String)
    (pricingStrategy : Option (PricingStrategy K)) (dispatchStrategy : Option DispatchStrategy)
    (calls : List (Call K)) :
    (∀ (k : Nat) (t : Trip K),
      (RideService.run sqrt to_string (RideService.new pricingStrategy dispatchStrategy)
        calls).1.reduceOption[k]? = some t →
      k + 1 ≤ 2147483647 → t.id = (k : Int) + 1) ∧
    ((RideService.run sqrt to_string (RideService.new pricingStrategy dispatchStrategy)
        calls).1.reduceOption.length + 1 ≤ 2147483647 →
      (RideService.run sqrt to_string (RideService.new pricingStrategy dispatchStrategy)
        calls).2.nextTripId_ =
      ((RideService.run sqrt to_string
        (RideService.new pricingStrategy dispatchStrategy) calls).1.reduceOption.length : Int)
        + 1) := by
  obtain ⟨h1, h2⟩ := RideService.run_ids sqrt to_string calls
    (RideService.new pricingStrategy dispatchStrategy)
    (wrapInt32_of_range 1 (by decide) (by decide))
  refine ⟨?_, ?_⟩
  · intro k t hk hle
    have hlt : k < (RideService.run sqrt to_string
        (RideService.new pricingStrategy dispatchStrategy) calls).1.reduceOption.length := by
      by_contra hge
      rw [List.getElem?_eq_none (not_lt.mp hge)] at hk
      exact absurd hk (by simp)
    have h3 := congrArg (fun l => l[k]?) h1
    simp only [List.getElem?_map, hk, Option.map_some', List.getElem?_range hlt] at h3
    have hn : (RideService.new pricingStrategy dispatchStrategy).nextTripId_ = 1 := rfl
    rw [Option.some.inj h3, hn, wrapInt32_of_range _ (by omega) (by omega)]
    ring
  · intro hle
    have hn : (RideService.new pricingStrategy dispatchStrategy).nextTripId_ = 1 := rfl
    rw [h2, hn, wrapInt32_of_range _ (by omega) (by omega)]
    ring

/-- Witness for the amended C2: the second trip of a session of two requests
on the sample service has id 2. -/
theorem C2_trip_ids_consecutive_below_overflow_witness :
    ∃ t,
      (RideService.run Real.sqrt (fun _ => "")
        (RideService.new (some PricingStrategy.standard)
          (some DispatchStrategy.nearestDriver))
        (sample.manyTrips ℝ 2)).1.reduceOption[1]? = some t ∧
      1 + 1 ≤ 2147483647 ∧ t.id = ((1 : Nat) : Int) + 1 := by
  obtain ⟨t, ht, _⟩ :=
    (sample.manyTrips_ids Real.sqrt (fun _ => "") PricingStrategy.standard 2).1 1 (by decide)
  exact ⟨t, ht, by decide,
    (C2_trip_ids_consecutive_below_overflow Real.sqrt (fun _ => "")
      (some PricingStrategy.standard) (some DispatchStrategy.nearestDriver)
      (sample.manyTrips ℝ 2)).1 1 t ht (by decide)⟩

/-- C2 fails as stated: in the session that adds the three drivers of `main`
and then requests 2147483648 trips, every request returns a trip, and the
2147483648-th returned trip (position 2147483647 counted from 0) has id
-2147483648, not 2147483648: the `int` counter has wrapped. -/
theorem C2_trip_ids_consecutive_counterexample :
    ∃ t,
      (RideService.run Real.sqrt (fun _ => "")
        (RideService.new (some PricingStrategy.standard)
          (some DispatchStrategy.nearestDriver))
        (sample.manyTrips ℝ 2147483648)).1.reduceOption[2147483647]? = some t ∧
      t.id = -2147483648 ∧ t.id ≠ 2147483648 := by
  obtain ⟨t, ht, hid⟩ :=
    (sample.manyTrips_ids Real.sqrt (fun _ => "") PricingStrategy.standard 2147483648).1
      2147483647 (by decide)
  have hval : t.id = -2147483648 := by
    rw [hid]
    decide
  exact ⟨t, ht, hval, by rw [hval]; decide⟩

/-- C17, amended: a successful `requestTrip` keeps the length and order of the
pool, leaves every driver other than the chosen one unchanged in all fields,
leaves the chosen driver's id, name, rating and availability unchanged (its
position becomes the dropoff), leaves both strategy slots unchanged and
advances the next trip id by exactly 1 whenever the counter is an `int` below
2147483647 (`INT_MAX`). -/
theorem C17_requestTrip_frame_below_overflow (sqrt : K → K) (to_string : K → String)
    (s : RideService K) (rider : Rider K) (t : Trip K) (s1 : RideService K)
    (h : RideService.requestTrip sqrt to_string s rider = (some t, s1)) :
    s1.drivers_.length = s.drivers_.length ∧
    (∀ k, k ≠ t.driver → s1.drivers_[k]? = s.drivers_[k]?) ∧
    (∃ d d1, s.drivers_[t.driver]? = some d ∧ s1.drivers_[t.driver]? = some d1 ∧
      d1.id_ = d.id_ ∧ d1.name_ = d.name_ ∧ d1.rating_ = d.rating_ ∧
      d1.available_ = d.available_ ∧ d1.position_ = rider.dropoff_) ∧
    s1.pricingStrategy_ = s.pricingStrategy_ ∧
    s1.dispatchStrategy_ = s.dispatchStrategy_ ∧
    (-2147483648 ≤ s.nextTripId_ → s.nextTripId_ < 2147483647 →
      s1.nextTripId_ = s.nextTripId_ + 1) := by
  rcases RideService.requestTrip_cases sqrt to_string s rider with
    ⟨hnone, _⟩ | ⟨pricing, dispatch, chosen, hp, hd, hc⟩
  · rw [hnone] at h
    exact absurd (congrArg Prod.fst h) (by simp)
  · rw [RideService.requestTrip_some sqrt to_string s rider pricing dispatch chosen hp hd hc] at h
    obtain ⟨d0, hd0, hav0⟩ :=
      DispatchStrategy.chooseDriver_available sqrt dispatch s.drivers_ rider chosen hc
    have ht := Option.some.inj (congrArg Prod.fst h)
    have hs := congrArg Prod.snd h
    simp only at ht hs
    subst ht
    subst hs
    refine ⟨by simp only [List.length_modify], ?_, ?_, rfl, rfl, ?_⟩
    · intro k hk
      simp only [RideService.getElem?_updated_pool, if_neg (Ne.symm hk)]
    · refine ⟨d0, Driver.setAvailable true (Driver.moveTo rider.dropoff_
        (Driver.setAvailable false d0)), hd0, ?_, rfl, rfl, rfl, ?_, rfl⟩
      · simp only [RideService.getElem?_updated_pool, if_true, hd0, Option.map_some']
      · simp only [Driver.setAvailable, hav0]
    · intro hlo hhi
      exact wrapInt32_of_range _ (by omega) (by omega)

/-- Witness for the amended C17 on the sample service with Standard pricing and
nearest-driver dispatch, whose counter is 1. -/
theorem C17_requestTrip_frame_below_overflow_witness :
    ∃ t s1,
      RideService.requestTrip Real.sqrt (fun _ => "")
        (main.service ℝ (some PricingStrategy.standard) (some DispatchStrategy.nearestDriver))
        (main.rider1 ℝ) = (some t, s1) ∧
      s1.drivers_.length = 3 ∧ s1.nextTripId_ = 1 + 1 ∧
      (∀ k, k ≠ t.driver → s1.drivers_[k]? = (main.drivers ℝ)[k]?) := by
  have h := RideService.requestTrip_some Real.sqrt (fun _ => "")
    (main.service ℝ (some PricingStrategy.standard) (some DispatchStrategy.nearestDriver))
    (main.rider1 ℝ) PricingStrategy.standard DispatchStrategy.nearestDriver 0 rfl rfl
    main.nearestDriver_choice
  have hframe := C17_requestTrip_frame_below_overflow Real.sqrt (fun _ => "")
    (main.service ℝ (some PricingStrategy.standard) (some DispatchStrategy.nearestDriver))
    (main.rider1 ℝ) _ _ h
  exact ⟨_, _, h, hframe.1, hframe.2.2.2.2.2 (by decide) (by decide), hframe.2.1⟩

/-- At counter 2147483647, with both strategies set, nearest-driver dispatch
and an available driver, `requestTrip` returns a trip and leaves the counter
at -2147483648. -/
theorem RideService.requestTrip_at_int_max (sqrt : K → K) (to_string : K → String)
    (s : RideService K) (rider : Rider K) (pricing : PricingStrategy K)
    (hp : s.pricingStrategy_ = some pricing)
    (hd : s.dispatchStrategy_ = some DispatchStrategy.nearestDriver)
    (hav : ∃ a ∈ s.drivers_, a.available_ = true)
    (hmax : s.nextTripId_ = 2147483647) :
    ∃ t s1, RideService.requestTrip sqrt to_string s rider = (some t, s1) ∧
      s1.nextTripId_ = -2147483648 := by
  obtain ⟨⟨t, ht⟩, _, _, _⟩ :=
    RideService.requestTrip_nearest_succeeds sqrt to_string s rider pricing hp hd hav
  rcases RideService.requestTrip_id sqrt to_string s rider with ⟨hn, _⟩ | ⟨t1, _, _, hnew⟩
  · rw [ht] at hn
    exact absurd hn (by simp)
  · refine ⟨t, (RideService.requestTrip sqrt to_string s rider).2, ?_, ?_⟩
    · rw [← ht]
    · rw [hnew, hmax]
      decide

/-- C17 fails as stated on its last part: the session that adds the three
drivers of `main` and then requests 2147483646 trips ends in a state whose
counter is 2147483647; the next `requestTrip` there returns a trip and leaves
the counter at -2147483648, not at 2147483648. -/
theorem C17_requestTrip_frame_counterexample :
    (RideService.run Real.sqrt (fun _ => "")
      (RideService.new (some PricingStrategy.standard) (some DispatchStrategy.nearestDriver))
      (sample.manyTrips ℝ 2147483646)).2.nextTripId_ = 2147483647 ∧
    ∃ t s1,
      RideService.requestTrip Real.sqrt (fun _ => "")
        (RideService.run Real.sqrt (fun _ => "")
          (RideService.new (some PricingStrategy.standard)
            (some DispatchStrategy.nearestDriver))
          (sample.manyTrips ℝ 2147483646)).2 (main.rider1 ℝ) = (some t, s1) ∧
      s1.nextTripId_ = -2147483648 ∧
      s1.nextTripId_ ≠
        (RideService.run Real.sqrt (fun _ => "")
          (RideService.new (some PricingStrategy.standard)
            (some DispatchStrategy.nearestDriver))
          (sample.manyTrips ℝ 2147483646)).2.nextTripId_ + 1 := by
  obtain ⟨_, hnext, hp, hd, hav⟩ :=
    sample.manyTrips_ids Real.sqrt (fun _ => "") PricingStrategy.standard 2147483646
  have hmax : (RideService.run Real.sqrt (fun _ => "")
      (RideService.new (some PricingStrategy.standard) (some DispatchStrategy.nearestDriver))
      (sample.manyTrips ℝ 2147483646)).2.nextTripId_ = 2147483647 := by
    rw [hnext]
    decide
  obtain ⟨t, s1, h, hval⟩ :=
    RideService.requestTrip_at_int_max Real.sqrt (fun _ => "") _ (main.rider1 ℝ)
      PricingStrategy.standard hp hd hav hmax
  refine ⟨hmax, t, s1, h, hval, ?_⟩
  rw [hval, hmax]
  decide

/-! ## The nearest-driver scan in binary64 arithmetic -/

/-- No `double` is less than itself. -/
theorem Binary64.lt_irrefl64 (a : Binary64) : Binary64.lt a a = false := by
  cases a with
  | finite a => simp [Binary64.lt]
  | infinite s => cases s <;> rfl
  | nan => rfl

/-- The comparison `<` of `double`s is transitive. -/
theorem Binary64.lt_trans64 (a b c : Binary64) (hab : Binary64.lt a b = true)
    (hbc : Binary64.lt b c = true) : Binary64.lt a c = true := by
  cases a with
  | finite a =>
    cases b with
    | finite b =>
      cases c with
      | finite c =>
        simp only [Binary64.lt, decide_eq_true_eq] at hab hbc ⊢
        exact lt_trans hab hbc
      | infinite t => exact hbc
      | nan => exact absurd hbc (by simp [Binary64.lt])
    | infinite s =>
      cases c with
      | finite c =>
        simp only [Binary64.lt, Bool.not_eq_true'] at hab hbc
        rw [hab] at hbc
        exact absurd hbc (by simp)
      | infinite t =>
        simp only [Binary64.lt, Bool.not_eq_true', Bool.and_eq_true] at hab hbc ⊢
        rw [hab] at hbc
        exact absurd hbc.1 (by simp)
      | nan => exact absurd hbc (by simp [Binary64.lt])
    | nan => exact absurd hab (by simp [Binary64.lt])
  | infinite s =>
    cases b with
    | finite b =>
      cases c with
      | finite c =>
        simp only [Binary64.lt] at hab ⊢
        exact hab
      | infinite t =>
        simp only [Binary64.lt, Bool.not_eq_true', Bool.and_eq_true] at hab hbc ⊢
        exact ⟨hab, hbc⟩
      | nan => exact absurd hbc (by simp [Binary64.lt])
    | infinite s2 =>
      simp only [Binary64.lt, Bool.not_eq_true', Bool.and_eq_true] at hab
      cases c with
      | finite c =>
        simp only [Binary64.lt] at hbc
        rw [hab.2] at hbc
        exact absurd hbc (by simp)
      | infinite t =>
        simp only [Binary64.lt, Bool.not_eq_true', Bool.and_eq_true] at hbc ⊢
        exact ⟨hab.1, hbc.2⟩
      | nan => exact absurd hbc (by simp [Binary64.lt])
    | nan => exact absurd hab (by simp [Binary64.lt])
  | nan => exact absurd hab (by simp [Binary64.lt])

/-- Invariant of the binary64 nearest-driver scan: either no available driver
of the remaining pool has a computed distance below `bd` and `closest` is
kept, or the scan returns an available driver whose computed distance is
below `bd`, that no available driver undercuts and no earlier available
driver equals. -/
theorem NearestDriverDispatch.loop64_spec (rider : Rider Binary64)
    (ds : List (Driver Binary64)) :
    ∀ (i : Nat) (closest : Option Nat) (bd : Binary64),
      (NearestDriverDispatch.loop64 rider ds i closest bd = closest ∧
        ∀ (k : Nat) (e : Driver Binary64), ds[k]? = some e → e.available_ = true →
          Binary64.lt (e.position_.distanceTo64 rider.pickup_) bd = false) ∨
      (∃ j d, NearestDriverDispatch.loop64 rider ds i closest bd = some (i + j) ∧
        ds[j]? = some d ∧ d.available_ = true ∧
        Binary64.lt (d.position_.distanceTo64 rider.pickup_) bd = true ∧
        (∀ (k : Nat) (e : Driver Binary64), ds[k]? = some e → e.available_ = true →
          Binary64.lt (e.position_.distanceTo64 rider.pickup_)
            (d.position_.distanceTo64 rider.pickup_) = false) ∧
        (∀ (k : Nat) (e : Driver Binary64), k < j → ds[k]? = some e → e.available_ = true →
          e.position_.distanceTo64 rider.pickup_ ≠ d.position_.distanceTo64 rider.pickup_)) := by
  induction ds with
  | nil =>
    intro i closest bd
    left
    exact ⟨rfl, fun k e h => by simp at h⟩
  | cons a rest ih =>
    intro i closest bd
    by_cases hav : a.available_ = true
    · cases hlt0 : Binary64.lt (a.position_.distanceTo64 rider.pickup_) bd with
      | true =>
        have hstep : NearestDriverDispatch.loop64 rider (a :: rest) i closest bd =
            NearestDriverDispatch.loop64 rider rest (i + 1) (some i)
              (a.position_.distanceTo64 rider.pickup_) := by
          simp [NearestDriverDispatch.loop64, hav, hlt0]
        rcases ih (i + 1) (some i) (a.position_.distanceTo64 rider.pickup_)
          with ⟨hres, hall⟩ | ⟨j, d, hres, hj, hd, hlt, hall, hfirst⟩
        · right
          refine ⟨0, a, by rw [hstep, hres]; rfl, by simp, hav, hlt0, ?_, ?_⟩
          · intro k e hk he
            cases k with
            | zero => simp at hk; subst hk; exact Binary64.lt_irrefl64 _
            | succ k => exact hall k e (by simpa using hk) he
          · intro k e hk
            exact absurd hk (Nat.not_lt_zero k)
        · right
          refine ⟨j + 1, d, by rw [hstep, hres]; congr 1; omega, by simpa using hj, hd,
            Binary64.lt_trans64 _ _ _ hlt hlt0, ?_, ?_⟩
          · intro k e hk he
            cases k with
            | zero =>
              simp at hk; subst hk
              cases hcontra : Binary64.lt (a.position_.distanceTo64 rider.pickup_)
                  (d.position_.distanceTo64 rider.pickup_) with
              | false => rfl
              | true =>
                have := Binary64.lt_trans64 _ _ _ hlt hcontra
                rw [Binary64.lt_irrefl64] at this
                exact absurd this (by simp)
            | succ k => exact hall k e (by simpa using hk) he
          · intro k e hkj hk he
            cases k with
            | zero =>
              simp at hk; subst hk
              intro heq
              rw [heq, Binary64.lt_irrefl64] at hlt
              exact absurd hlt (by simp)
            | succ k => exact hfirst k e (by omega) (by simpa using hk) he
      | false =>
        have hstep : NearestDriverDispatch.loop64 rider (a :: rest) i closest bd =
            NearestDriverDispatch.loop64 rider rest (i + 1) closest bd := by
          simp [NearestDriverDispatch.loop64, hav, hlt0]
        rcases ih (i + 1) closest bd with ⟨hres, hall⟩ | ⟨j, d, hres, hj, hd, hlt, hall, hfirst⟩
        · left
          refine ⟨by rw [hstep, hres], ?_⟩
          intro k e hk he
          cases k with
          | zero => simp at hk; subst hk; exact hlt0
          | succ k => exact hall k e (by simpa using hk) he
        · right
          refine ⟨j + 1, d, by rw [hstep, hres]; congr 1; omega, by simpa using hj, hd,
            hlt, ?_, ?_⟩
          · intro k e hk he
            cases k with
            | zero =>
              simp at hk; subst hk
              cases hcontra : Binary64.lt (a.position_.distanceTo64 rider.pickup_)
                  (d.position_.distanceTo64 rider.pickup_) with
              | false => rfl
              | true =>
                have := Binary64.lt_trans64 _ _ _ hcontra hlt
                rw [hlt0] at this
                exact absurd this (by simp)
            | succ k => exact hall k e (by simpa using hk) he
          · intro k e hkj hk he
            cases k with
            | zero =>
              simp at hk; subst hk
              intro heq
              rw [heq, hlt] at hlt0
              exact absurd hlt0 (by simp)
            | succ k => exact hfirst k e (by omega) (by simpa using hk) he
    · have hstep : NearestDriverDispatch.loop64 rider (a :: rest) i closest bd =
          NearestDriverDispatch.loop64 rider rest (i + 1) closest bd := by
        simp [NearestDriverDispatch.loop64, hav]
      rcases ih (i + 1) closest bd with ⟨hres, hall⟩ | ⟨j, d, hres, hj, hd, hlt, hall, hfirst⟩
      · left
        refine ⟨by rw [hstep, hres], ?_⟩
        intro k e hk he
        cases k with
        | zero => simp at hk; subst hk; exact absurd he hav
        | succ k => exact hall k e (by simpa using hk) he
      · right
        refine ⟨j + 1, d, by rw [hstep, hres]; congr 1; omega, by simpa using hj, hd,
          hlt, ?_, ?_⟩
        · intro k e hk he
          cases k with
          | zero => simp at hk; subst hk; exact absurd he hav
          | succ k => exact hall k e (by simpa using hk) he
        · intro k e hkj hk he
          cases k with
          | zero => simp at hk; subst hk; exact absurd he hav
          | succ k => exact hfirst k e (by omega) (by simpa using hk) he

/-- The number of binary digits of `n` is `b` when `n` lies between 2^(b-1)
and 2^b. -/
theorem Binary64.size_eq (n b : Nat) (hlo : 2 ^ b ≤ 2 * n) (hhi : n < 2 ^ b) :
    Nat.size n = b := by
  cases b with
  | zero => simp at hlo hhi; omega
  | succ c =>
    have h1 : c < Nat.size n := Nat.lt_size.mpr (by rw [pow_succ] at hlo; omega)
    have h2 : Nat.size n ≤ c + 1 := Nat.size_le.mpr hhi
    omega

/-- Rounding with the number of binary digits supplied. -/
theorem Binary64.roundUnits_eval (n shift b : Nat) (hlo : 2 ^ b ≤ 2 * n) (hhi : n < 2 ^ b) :
    Binary64.roundUnits n shift =
      if 2 ^ max (b - 53) shift < 2 * (n % 2 ^ max (b - 53) shift) ∨
          (2 * (n % 2 ^ max (b - 53) shift) = 2 ^ max (b - 53) shift ∧
            n / 2 ^ max (b - 53) shift % 2 = 1) then
        (n / 2 ^ max (b - 53) shift + 1) * 2 ^ (max (b - 53) shift - shift)
      else
        n / 2 ^ max (b - 53) shift * 2 ^ (max (b - 53) shift - shift) := by
  unfold Binary64.roundUnits
  rw [Binary64.size_eq n b hlo hhi]

/-- Rounding zero gives zero. -/
theorem Binary64.roundUnits_zero (shift : Nat) : Binary64.roundUnits 0 shift = 0 := by
  simp [Binary64.roundUnits]

/-- A magnitude below 2^1024 with positive sign is that finite `double`. -/
theorem Binary64.pack_finite (units : Nat) (h : units < 2 ^ 2098) :
    Binary64.pack false units = Binary64.finite (units : Int) := by
  unfold Binary64.pack
  rw [if_neg (not_le.mpr h)]
  rfl

/-- The `double` 0.0. -/
theorem Binary64.ofNat_zero : Binary64.ofNat 0 = Binary64.finite 0 := by
  unfold Binary64.ofNat
  rw [Nat.zero_mul, Binary64.roundUnits_zero, Binary64.pack_finite 0 (by positivity)]
  rfl

/-- The `double` 1.0 is 2^1074 units. -/
theorem Binary64.ofNat_one : Binary64.ofNat 1 = Binary64.finite (2 ^ 1074) := by
  unfold Binary64.ofNat
  rw [Binary64.roundUnits_eval (1 * 2 ^ 1074) 0 1075 (by norm_num) (by norm_num)]
  norm_num [Binary64.pack]

/-- The `double` 134217728.0 is 2^1101 units. -/
theorem Binary64.ofNat_far : Binary64.ofNat 134217728 = Binary64.finite (2 ^ 1101) := by
  unfold Binary64.ofNat
  rw [Binary64.roundUnits_eval (134217728 * 2 ^ 1074) 0 1102 (by norm_num) (by norm_num)]
  norm_num [Binary64.pack]

/-- Subtracting 0.0 from a non-negative finite `double` that rounds to itself. -/
theorem Binary64.sub_zero_far :
    Binary64.sub (Binary64.finite (2 ^ 1101)) (Binary64.finite 0) =
      Binary64.finite (2 ^ 1101) := by
  have h : ((2 : Int) ^ 1101 - 0).natAbs = 2 ^ 1101 := by norm_num
  simp only [Binary64.sub, h]
  rw [Binary64.roundUnits_eval (2 ^ 1101) 0 1102 (by norm_num) (by norm_num)]
  norm_num [Binary64.pack]

/-- The square of 134217728.0 is 2^54, exactly. -/
theorem Binary64.mul_far :
    Binary64.mul (Binary64.finite (2 ^ 1101)) (Binary64.finite (2 ^ 1101)) =
      Binary64.finite (2 ^ 1128) := by
  have h : ((2 : Int) ^ 1101 * 2 ^ 1101).natAbs = 2 ^ 2202 := by norm_num
  simp only [Binary64.mul, h]
  rw [Binary64.roundUnits_eval (2 ^ 2202) 1074 2203 (by norm_num) (by norm_num)]
  norm_num [Binary64.pack]

/-- The sum 2^54 + 1.0 is not a `double`; it rounds to 2^54. -/
theorem Binary64.add_far_one :
    Binary64.add (Binary64.finite (2 ^ 1128)) (Binary64.finite (2 ^ 1074)) =
      Binary64.finite (2 ^ 1128) := by
  have h : ((2 : Int) ^ 1128 + 2 ^ 1074).natAbs = 2 ^ 1128 + 2 ^ 1074 := by
    rw [show ((2 : Int) ^ 1128 + 2 ^ 1074) = ((2 ^ 1128 + 2 ^ 1074 : Nat) : Int) by
      simp only [Nat.cast_add, Nat.cast_pow, Nat.cast_ofNat]]
    exact Int.natAbs_ofNat _
  simp only [Binary64.add, h]
  rw [Binary64.roundUnits_eval (2 ^ 1128 + 2 ^ 1074) 0 1129 (by norm_num) (by norm_num)]
  norm_num [Binary64.pack]

/-- The square root of 2^54 is 134217728.0, exactly. -/
theorem Binary64.sqrt_far :
    Binary64.sqrt (Binary64.finite (2 ^ 1128)) = Binary64.finite (2 ^ 1101) := by
  have hn : ((2 : Int) ^ 1128).toNat * 2 ^ 1074 = (2 ^ 1101) ^ 2 := by
    rw [show ((2 : Int) ^ 1128) = ((2 ^ 1128 : Nat) : Int) by
      simp only [Nat.cast_pow, Nat.cast_ofNat], Int.toNat_ofNat]
    norm_num
  have hneg : ¬ ((2 : Int) ^ 1128 < 0) := not_lt.mpr (by positivity)
  simp only [Binary64.sqrt, hneg, if_false, hn, Nat.sqrt_eq']
  rw [show (2 ^ 1101 * 2 ^ 1101 : Nat) = (2 ^ 1101) ^ 2 by ring]
  simp only [if_true, Nat.add_zero]
  rw [Binary64.roundUnits_eval (2 * 2 ^ 1101) 1 1103 (by norm_num) (by norm_num)]
  norm_num [Binary64.pack]

/-! ### Landmarks of the rounding -/

/-- Ties go to the even neighbour: 2^53 + 1 rounds down to 2^53 and 2^53 + 3
rounds up to 2^53 + 4. -/
theorem Binary64.ofNat_ties_to_even :
    Binary64.ofNat (2 ^ 53 + 1) = Binary64.finite (2 ^ 53 * 2 ^ 1074) ∧
    Binary64.ofNat (2 ^ 53 + 3) = Binary64.finite ((2 ^ 53 + 4) * 2 ^ 1074) := by
  constructor
  · unfold Binary64.ofNat
    rw [Binary64.roundUnits_eval ((2 ^ 53 + 1) * 2 ^ 1074) 0 1128 (by norm_num) (by norm_num)]
    norm_num [Binary64.pack]
  · unfold Binary64.ofNat
    rw [Binary64.roundUnits_eval ((2 ^ 53 + 3) * 2 ^ 1074) 0 1128 (by norm_num) (by norm_num)]
    norm_num [Binary64.pack]

/-- The largest finite `double` is 2^1024 - 2^971; 2^1024 itself overflows. -/
theorem Binary64.ofNat_overflow_threshold :
    Binary64.ofNat (2 ^ 1024 - 2 ^ 971) =
      Binary64.finite ((2 ^ 1024 - 2 ^ 971) * 2 ^ 1074) ∧
    Binary64.ofNat (2 ^ 1024) = Binary64.infinity := by
  constructor
  · unfold Binary64.ofNat
    rw [Binary64.roundUnits_eval ((2 ^ 1024 - 2 ^ 971) * 2 ^ 1074) 0 2098 (by norm_num)
      (by norm_num)]
    norm_num [Binary64.pack]
  · unfold Binary64.ofNat
    rw [Binary64.roundUnits_eval (2 ^ 1024 * 2 ^ 1074) 0 2099 (by norm_num) (by norm_num)]
    norm_num [Binary64.pack, Binary64.infinity]

/-- Subtracting 0.0 from 1.0. -/
theorem Binary64.sub_zero_one :
    Binary64.sub (Binary64.finite (2 ^ 1074)) (Binary64.finite 0) =
      Binary64.finite (2 ^ 1074) := by
  have h : ((2 : Int) ^ 1074 - 0).natAbs = 2 ^ 1074 := by norm_num
  simp only [Binary64.sub, h]
  rw [Binary64.roundUnits_eval (2 ^ 1074) 0 1075 (by norm_num) (by norm_num)]
  norm_num [Binary64.pack]

/-- The square of 1.0 is 1.0. -/
theorem Binary64.mul_one_one :
    Binary64.mul (Binary64.finite (2 ^ 1074)) (Binary64.finite (2 ^ 1074)) =
      Binary64.finite (2 ^ 1074) := by
  have h : ((2 : Int) ^ 1074 * 2 ^ 1074).natAbs = 2 ^ 2148 := by norm_num
  simp only [Binary64.mul, h]
  rw [Binary64.roundUnits_eval (2 ^ 2148) 1074 2149 (by norm_num) (by norm_num)]
  norm_num [Binary64.pack]

/-- The difference 0.0 - 0.0 is 0.0. -/
theorem Binary64.sub_zero_zero :
    Binary64.sub (Binary64.finite 0) (Binary64.finite 0) = Binary64.finite 0 := by
  have h : ((0 : Int) - 0).natAbs = 0 := by norm_num
  simp only [Binary64.sub, h, Binary64.roundUnits_zero]
  rw [show decide ((0 : Int) - 0 < 0) = false by decide,
    Binary64.pack_finite 0 (by positivity)]
  rfl

/-- The square of 0.0 is 0.0. -/
theorem Binary64.mul_zero_zero :
    Binary64.mul (Binary64.finite 0) (Binary64.finite 0) = Binary64.finite 0 := by
  have h : ((0 : Int) * 0).natAbs = 0 := by norm_num
  simp only [Binary64.mul, h, Binary64.roundUnits_zero]
  rw [show decide ((0 : Int) * 0 < 0) = false by decide,
    Binary64.pack_finite 0 (by positivity)]
  rfl

/-- Adding 0.0 to 2^54. -/
theorem Binary64.add_far_zero :
    Binary64.add (Binary64.finite (2 ^ 1128)) (Binary64.finite 0) =
      Binary64.finite (2 ^ 1128) := by
  have h : ((2 : Int) ^ 1128 + 0).natAbs = 2 ^ 1128 := by norm_num
  simp only [Binary64.add, h]
  rw [Binary64.roundUnits_eval (2 ^ 1128) 0 1129 (by norm_num) (by norm_num)]
  norm_num [Binary64.pack]

/-- The computed distance of Ana, at (134217728, 1), from the origin is
134217728.0: the 1.0 is lost in the sum of the squares. -/
theorem sample.farPool_distance_ana :
    Location.distanceTo64 { x := Binary64.ofNat 134217728, y := Binary64.ofNat 1 }
      { x := Binary64.ofNat 0, y := Binary64.ofNat 0 } = Binary64.finite (2 ^ 1101) := by
  simp only [Location.distanceTo64, Binary64.ofNat_far, Binary64.ofNat_one,
    Binary64.ofNat_zero, Binary64.sub_zero_far, Binary64.sub_zero_one, Binary64.mul_far,
    Binary64.mul_one_one, Binary64.add_far_one, Binary64.sqrt_far]

/-- The computed distance of Ben, at (134217728, 0), from the origin is
134217728.0. -/
theorem sample.farPool_distance_ben :
    Location.distanceTo64 { x := Binary64.ofNat 134217728, y := Binary64.ofNat 0 }
      { x := Binary64.ofNat 0, y := Binary64.ofNat 0 } = Binary64.finite (2 ^ 1101) := by
  simp only [Location.distanceTo64, Binary64.ofNat_far, Binary64.ofNat_zero,
    Binary64.sub_zero_far, Binary64.sub_zero_zero, Binary64.mul_far, Binary64.mul_zero_zero,
    Binary64.add_far_zero, Binary64.sqrt_far]

/-- Two available drivers with the same computed distance, below infinity:
the binary64 scan keeps the first. -/
theorem NearestDriverDispatch.chooseDriver64_tie (rider : Rider Binary64)
    (a b : Driver Binary64) (x : Binary64) (ha : a.available_ = true)
    (hb : b.available_ = true) (hda : a.position_.distanceTo64 rider.pickup_ = x)
    (hdb : b.position_.distanceTo64 rider.pickup_ = x)
    (hx : Binary64.lt x Binary64.infinity = true) :
    NearestDriverDispatch.chooseDriver64 [a, b] rider = some 0 := by
  simp [NearestDriverDispatch.chooseDriver64, NearestDriverDispatch.loop64, ha, hb, hda, hdb,
    hx, Binary64.lt_irrefl64]

/-- One available driver whose computed distance is infinity: the binary64
scan returns no driver. -/
theorem NearestDriverDispatch.chooseDriver64_infinite (rider : Rider Binary64)
    (a : Driver Binary64) (ha : a.available_ = true)
    (hda : a.position_.distanceTo64 rider.pickup_ = Binary64.infinity) :
    NearestDriverDispatch.chooseDriver64 [a] rider = none := by
  simp [NearestDriverDispatch.chooseDriver64, NearestDriverDispatch.loop64, ha, hda,
    Binary64.lt_irrefl64]

/-- On the far pool the binary64 scan keeps Ana (index 0): the computed
distances of Ana and Ben are equal, and the test `<` fails for Ben. -/
theorem sample.farPool_choice :
    NearestDriverDispatch.chooseDriver64 sample.farPool sample.originRider = some 0 :=
  NearestDriverDispatch.chooseDriver64_tie sample.originRider _ _ (Binary64.finite (2 ^ 1101))
    rfl rfl sample.farPool_distance_ana sample.farPool_distance_ben rfl

/-- The `double` 1e200 is 5883593420661338 * 2^1686 units. -/
theorem Binary64.ofNat_1e200 :
    Binary64.ofNat (10 ^ 200) = Binary64.finite (5883593420661338 * 2 ^ 1686) := by
  unfold Binary64.ofNat
  rw [Binary64.roundUnits_eval (10 ^ 200 * 2 ^ 1074) 0 1739 (by norm_num) (by norm_num)]
  norm_num [Binary64.pack]

/-- Subtracting 0.0 from 1e200. -/
theorem Binary64.sub_zero_1e200 :
    Binary64.sub (Binary64.finite (5883593420661338 * 2 ^ 1686)) (Binary64.finite 0) =
      Binary64.finite (5883593420661338 * 2 ^ 1686) := by
  have h : ((5883593420661338 : Int) * 2 ^ 1686 - 0).natAbs = 5883593420661338 * 2 ^ 1686 := by
    norm_num
  simp only [Binary64.sub, h]
  rw [Binary64.roundUnits_eval (5883593420661338 * 2 ^ 1686) 0 1739 (by norm_num)
    (by norm_num)]
  norm_num [Binary64.pack]

/-- The square of 1e200 overflows to infinity. -/
theorem Binary64.mul_1e200 :
    Binary64.mul (Binary64.finite (5883593420661338 * 2 ^ 1686))
      (Binary64.finite (5883593420661338 * 2 ^ 1686)) = Binary64.infinity := by
  have h : ((5883593420661338 : Int) * 2 ^ 1686 * (5883593420661338 * 2 ^ 1686)).natAbs =
      5883593420661338 * 2 ^ 1686 * (5883593420661338 * 2 ^ 1686) := by
    norm_num
  simp only [Binary64.mul, h]
  rw [Binary64.roundUnits_eval
    (5883593420661338 * 2 ^ 1686 * (5883593420661338 * 2 ^ 1686)) 1074 3477 (by norm_num)
    (by norm_num)]
  norm_num [Binary64.pack, Binary64.infinity]

/-- The computed distance of a driver at (1e200, 0) from the origin is
infinity: the square of 1e200 overflows. -/
theorem sample.overflowPool_distance :
    Location.distanceTo64 { x := Binary64.ofNat (10 ^ 200), y := Binary64.ofNat 0 }
      { x := Binary64.ofNat 0, y := Binary64.ofNat 0 } = Binary64.infinity := by
  simp only [Location.distanceTo64, Binary64.ofNat_1e200, Binary64.ofNat_zero,
    Binary64.sub_zero_1e200, Binary64.sub_zero_zero, Binary64.mul_1e200,
    Binary64.mul_zero_zero]
  rfl

/-- On the overflow pool the binary64 scan returns no driver. -/
theorem sample.overflowPool_choice :
    NearestDriverDispatch.chooseDriver64 sample.overflowPool sample.originRider = none :=
  NearestDriverDispatch.chooseDriver64_infinite sample.originRider _ rfl
    sample.overflowPool_distance

/-- The exact value of the `double` 134217728.0. -/
theorem Binary64.toRat_far : Binary64.toRat (Binary64.ofNat 134217728) = 134217728 := by
  rw [Binary64.ofNat_far]
  simp only [Binary64.toRat]
  norm_num

/-- The exact value of the `double` 1.0. -/
theorem Binary64.toRat_one : Binary64.toRat (Binary64.ofNat 1) = 1 := by
  rw [Binary64.ofNat_one]
  simp only [Binary64.toRat]
  norm_num

/-- The exact value of the `double` 0.0. -/
theorem Binary64.toRat_zero : Binary64.toRat (Binary64.ofNat 0) = 0 := by
  rw [Binary64.ofNat_zero]
  simp only [Binary64.toRat]
  norm_num

/-- In exact arithmetic Ben, on the axis, is strictly nearer to the origin
than Ana, one unit off it. -/
theorem sample.farPool_exact :
    (Location.exact ℝ { x := Binary64.ofNat 134217728, y := Binary64.ofNat 0 }).distanceTo
        Real.sqrt (Location.exact ℝ { x := Binary64.ofNat 0, y := Binary64.ofNat 0 }) <
      (Location.exact ℝ { x := Binary64.ofNat 134217728, y := Binary64.ofNat 1 }).distanceTo
        Real.sqrt (Location.exact ℝ { x := Binary64.ofNat 0, y := Binary64.ofNat 0 }) := by
  simp only [Location.exact, Location.distanceTo, Binary64.toRat_far, Binary64.toRat_one,
    Binary64.toRat_zero]
  apply Real.sqrt_lt_sqrt
  · positivity
  · norm_num

/-- C7, amended: in binary64 arithmetic, on a pool with at least one available
driver whose computed distance to the rider's pickup is below infinity,
`NearestDriverDispatch::chooseDriver` returns a driver of the pool that is
available, whose computed distance no available driver undercuts, and that
comes first in pool order among the available drivers at that computed
distance. -/
theorem C7_nearestDriver_choice_binary64 (drivers : List (Driver Binary64))
    (rider : Rider Binary64)
    (h : ∃ a ∈ drivers, a.available_ = true ∧
      Binary64.lt (a.position_.distanceTo64 rider.pickup_) Binary64.infinity = true) :
    ∃ i d, NearestDriverDispatch.chooseDriver64 drivers rider = some i ∧
      drivers[i]? = some d ∧ d ∈ drivers ∧ d.available_ = true ∧
      (∀ e ∈ drivers, e.available_ = true →
        Binary64.lt (e.position_.distanceTo64 rider.pickup_)
          (d.position_.distanceTo64 rider.pickup_) = false) ∧
      (∀ (k : Nat) (e : Driver Binary64), drivers[k]? = some e → e.available_ = true →
        e.position_.distanceTo64 rider.pickup_ = d.position_.distanceTo64 rider.pickup_ →
        i ≤ k) := by
  obtain ⟨a, ha, haav, halt⟩ := h
  unfold NearestDriverDispatch.chooseDriver64
  rcases NearestDriverDispatch.loop64_spec rider drivers 0 none Binary64.infinity with
    ⟨_, hall⟩ | ⟨j, d, hres, hj, hd, _, hall, hfirst⟩
  · obtain ⟨k, hk⟩ := List.getElem?_of_mem ha
    have := hall k a hk haav
    rw [halt] at this
    exact absurd this (by simp)
  · refine ⟨j, d, by rw [hres, Nat.zero_add], hj, List.getElem?_mem hj, hd, ?_, ?_⟩
    · intro e he heav
      obtain ⟨k, hk⟩ := List.getElem?_of_mem he
      exact hall k e hk heav
    · intro k e hk heav heq
      by_contra hlt
      exact hfirst k e (not_le.mp hlt) hk heav heq

/-- Ana's computed distance on the far pool is below infinity. -/
theorem sample.farPool_ana_finite :
    Binary64.lt
      (Location.distanceTo64 { x := Binary64.ofNat 134217728, y := Binary64.ofNat 1 }
        { x := Binary64.ofNat 0, y := Binary64.ofNat 0 }) Binary64.infinity = true := by
  rw [sample.farPool_distance_ana]
  rfl

/-- Witness for the amended C7: the far pool, where Ana has a finite computed
distance. -/
theorem C7_nearestDriver_choice_binary64_witness :
    (∃ a ∈ sample.farPool, a.available_ = true ∧
      Binary64.lt (a.position_.distanceTo64 sample.originRider.pickup_)
        Binary64.infinity = true) ∧
    ∃ i d, NearestDriverDispatch.chooseDriver64 sample.farPool sample.originRider = some i ∧
      sample.farPool[i]? = some d ∧ d ∈ sample.farPool ∧ d.available_ = true ∧
      (∀ e ∈ sample.farPool, e.available_ = true →
        Binary64.lt (e.position_.distanceTo64 sample.originRider.pickup_)
          (d.position_.distanceTo64 sample.originRider.pickup_) = false) ∧
      (∀ (k : Nat) (e : Driver Binary64), sample.farPool[k]? = some e →
        e.available_ = true →
        e.position_.distanceTo64 sample.originRider.pickup_ =
          d.position_.distanceTo64 sample.originRider.pickup_ → i ≤ k) :=
  ⟨⟨_, List.mem_cons_self _ _, rfl, sample.farPool_ana_finite⟩,
    C7_nearestDriver_choice_binary64 sample.farPool sample.originRider
      ⟨_, List.mem_cons_self _ _, rfl, sample.farPool_ana_finite⟩⟩

/-- C7 fails as stated, in two ways.  Rounding: on the far pool both drivers
are available and the code returns Ana (index 0), although Ben (index 1) is
strictly nearer to the pickup in exact Euclidean distance; the 1.0 of Ana's
offset is lost when the squares are added.  Overflow: on the pool whose only
driver is available at (1e200, 0) the code returns no driver. -/
theorem C7_nearestDriver_choice_counterexample :
    (NearestDriverDispatch.chooseDriver64 sample.farPool sample.originRider = some 0 ∧
      ∃ ana ben, sample.farPool[0]? = some ana ∧ sample.farPool[1]? = some ben ∧
        ana.available_ = true ∧ ben.available_ = true ∧
        (Location.exact ℝ ben.position_).distanceTo Real.sqrt
            (Location.exact ℝ sample.originRider.pickup_) <
          (Location.exact ℝ ana.position_).distanceTo Real.sqrt
            (Location.exact ℝ sample.originRider.pickup_)) ∧
    ((∃ a ∈ sample.overflowPool, a.available_ = true) ∧
      NearestDriverDispatch.chooseDriver64 sample.overflowPool sample.originRider = none) :=
  ⟨⟨sample.farPool_choice, _, _, rfl, rfl, rfl, rfl, sample.farPool_exact⟩,
    ⟨_, List.mem_cons_self _ _, rfl⟩, sample.overflowPool_choice⟩

end RideSharing
